import Mathlib

/-!
naivechain: ledger validity, reconciliation and session bookkeeping.

A shallow embedding of src/main.js, in two layers.

The first layer takes blocks to have the field types the Block constructor is meant for:
* The SHA-256 primitive (CryptoJS.SHA256(..).toString()) is a parameter
  H : String → String of every definition that hashes.
* The process-wide variables blockchain and sockets are the fields of Node;
  ws.send is recorded by appending to Node.outbox.
* A JavaScript TypeError (reading a property of undefined) is the result none.
* Block indices are integers, timestamps are JavaScript numbers modelled as exact
  rationals, hashes and payloads are strings.
* Array.prototype.sort is taken to be stable, as ECMAScript 2019 requires.

The second layer (namespace Raw) follows the ledger functions on what the held chain can
really hold: objects from JSON.parse with arbitrary values in their fields, numbers that
are doubles, strict equality, and the operator + with its string and number meanings.
The theorem isValidNewBlock_toRaw relates the two layers.
-/

namespace Naivechain

/-! Data model -/

/-- The `Block` class: the constructor stores its five arguments (`toString` on the two
hashes is the identity on strings). -/
structure Block where
  index : Int
  previousHash : String
  timestamp : ℚ
  data : String
  hash : String
deriving DecidableEq

/-- A peer link (`ws`), identified by a number. -/
abbrev Socket := Nat

/-- Tag `MessageType.QUERY_LATEST`. -/
def MessageType.QUERY_LATEST : Nat := 0

/-- Tag `MessageType.QUERY_ALL`. -/
def MessageType.QUERY_ALL : Nat := 1

/-- Tag `MessageType.RESPONSE_BLOCKCHAIN`. -/
def MessageType.RESPONSE_BLOCKCHAIN : Nat := 2

/-- A protocol message `{type, data}`; `data`, when present, stands for the JSON text
`JSON.stringify(blocks)` and is kept as the block sequence it serialises. -/
structure Message where
  type : Nat
  data : Option (List Block)
deriving DecidableEq

/-- The mutable state of one node: `blockchain`, `sockets`, and the messages handed to
`ws.send` so far (oldest first). -/
structure Node where
  blockchain : List Block
  sockets : List Socket
  outbox : List (Socket × Message)
deriving DecidableEq

/-- The hard-coded first block, `getGenesisBlock()`. -/
def getGenesisBlock : Block :=
  { index := 0
    previousHash := "0"
    timestamp := 1465154705
    data := "my genesis block!!"
    hash := "816534932c2b7154836da6afc367695e6337db8a921823784c14378abed4f7d7" }

/-- The state at startup: `blockchain = [getGenesisBlock()]`, `sockets = []`. -/
def initialNode : Node :=
  { blockchain := [getGenesisBlock], sockets := [], outbox := [] }

/-! Number to text -/

/-- Decimal digits of the fraction `r / d` (with `r < d`), at most `fuel` of them. -/
def fracDigits (d : Nat) : Nat → Nat → String
  | _, 0 => ""
  | r, fuel + 1 =>
    if r = 0 then "" else toString (r * 10 / d) ++ fracDigits d (r * 10 % d) fuel

/-- The text JavaScript puts for a number inside a string concatenation. Integers are
written in decimal; other values as integer part, point, and fraction digits. This is the
text JavaScript prints for integers and for millisecond counts divided by 1000, the only
numbers the program itself produces; longer fractions are cut after 17 digits. -/
def numberToString (q : ℚ) : String :=
  if q.den = 1 then toString q.num
  else (if q < 0 then "-" else "") ++ toString (q.num.natAbs / q.den) ++ "."
    ++ fracDigits q.den (q.num.natAbs % q.den) 17

/-! Hashing and block validation -/

/-- Source `calculateHash`: `SHA256(index + previousHash + timestamp + data)`, the sum
being string concatenation. -/
def calculateHash (H : String → String) (index : Int) (previousHash : String)
    (timestamp : ℚ) (data : String) : String :=
  H (toString index ++ previousHash ++ numberToString timestamp ++ data)

/-- Source `calculateHashForBlock`. -/
def calculateHashForBlock (H : String → String) (block : Block) : String :=
  calculateHash H block.index block.previousHash block.timestamp block.data

/-- The text `index + previousHash + timestamp + data` that `calculateHash` hands to the
hash function. -/
def hashText (index : Int) (previousHash : String) (timestamp : ℚ) (data : String) :
    String :=
  toString index ++ previousHash ++ numberToString timestamp ++ data

/-- Source `isValidNewBlock`: the three checks in the source's order. -/
def isValidNewBlock (H : String → String) (newBlock previousBlock : Block) : Bool :=
  if previousBlock.index + 1 ≠ newBlock.index then
    false
  else if previousBlock.hash ≠ newBlock.previousHash then
    false
  else if calculateHashForBlock H newBlock ≠ newBlock.hash then
    false
  else
    true

/-- Source `getLatestBlock`: `blockchain[blockchain.length - 1]`, `none` when that read
gives `undefined`. -/
def getLatestBlock (blockchain : List Block) : Option Block :=
  blockchain.getLast?

/-- The `for` loop of `isValidChain`: `remaining` iterations are left, the loop variable
is `i`, and `tempBlocks` is the accumulated list. A missing element is `undefined` in the
source, on which `isValidNewBlock` cannot succeed. -/
def isValidChainLoop (H : String → String) (blockchainToValidate : List Block) :
    Nat → Nat → List Block → Bool
  | 0, _, _ => true
  | remaining + 1, i, tempBlocks =>
    match blockchainToValidate[i]?, tempBlocks[i - 1]? with
    | some newBlock, some previousBlock =>
      if isValidNewBlock H newBlock previousBlock then
        isValidChainLoop H blockchainToValidate remaining (i + 1) (tempBlocks ++ [newBlock])
      else
        false
    | _, _ => false

/-- Source `isValidChain`: the first block must serialise to the same text as the genesis
block, then the loop runs for `i = 1 .. length - 1`. -/
def isValidChain (H : String → String) (blockchainToValidate : List Block) : Bool :=
  match blockchainToValidate[0]? with
  | none => false
  | some first =>
    if first ≠ getGenesisBlock then
      false
    else
      isValidChainLoop H blockchainToValidate (blockchainToValidate.length - 1) 1 [first]

/-! Messages and sending -/

/-- Source `queryChainLengthMsg`. -/
def queryChainLengthMsg : Message :=
  { type := MessageType.QUERY_LATEST, data := none }

/-- Source `queryAllMsg`. -/
def queryAllMsg : Message :=
  { type := MessageType.QUERY_ALL, data := none }

/-- Source `responseChainMsg`. -/
def responseChainMsg (blockchain : List Block) : Message :=
  { type := MessageType.RESPONSE_BLOCKCHAIN, data := some blockchain }

/-- Source `responseLatestMsg`: the payload is `[getLatestBlock()]`. (On an empty chain the
source serialises `[undefined]`; the model has no such element and gives the empty
sequence.) -/
def responseLatestMsg (blockchain : List Block) : Message :=
  { type := MessageType.RESPONSE_BLOCKCHAIN, data := some (getLatestBlock blockchain).toList }

/-- Source `write`: `ws.send(JSON.stringify(message))`. -/
def write (s : Node) (ws : Socket) (message : Message) : Node :=
  { s with outbox := s.outbox ++ [(ws, message)] }

/-- Source `broadcast`: `sockets.forEach(socket => write(socket, message))`. -/
def broadcast (s : Node) (message : Message) : Node :=
  s.sockets.foldl (fun acc socket => write acc socket message) s

/-! Ledger operations -/

/-- Source `generateNextBlock`; `now` is the reading of `new Date().getTime()`, in
milliseconds. -/
def generateNextBlock (H : String → String) (blockchain : List Block) (now : Nat)
    (blockData : String) : Option Block :=
  match getLatestBlock blockchain with
  | none => none
  | some previousBlock =>
    let nextIndex := previousBlock.index + 1
    let nextTimestamp : ℚ := (now : ℚ) / 1000
    let nextHash := calculateHash H nextIndex previousBlock.hash nextTimestamp blockData
    some
      { index := nextIndex
        previousHash := previousBlock.hash
        timestamp := nextTimestamp
        data := blockData
        hash := nextHash }

/-- Source `addBlock`. -/
def addBlock (H : String → String) (s : Node) (newBlock : Block) : Option Node :=
  match getLatestBlock s.blockchain with
  | none => none
  | some latest =>
    if isValidNewBlock H newBlock latest then
      some { s with blockchain := s.blockchain ++ [newBlock] }
    else
      some s

/-- Source `replaceChain`. -/
def replaceChain (H : String → String) (s : Node) (newBlocks : List Block) : Node :=
  if isValidChain H newBlocks && decide (newBlocks.length > s.blockchain.length) then
    let s1 := { s with blockchain := newBlocks }
    broadcast s1 (responseLatestMsg s1.blockchain)
  else
    s

/-- The comparator handed to `sort`: `(b1, b2) => b1.index - b2.index`. -/
def compareIndex (b1 b2 : Block) : Int :=
  b1.index - b2.index

/-- `Array.prototype.sort` with `compareIndex`: a stable sort, ascending by index. -/
def sortByIndex (blocks : List Block) : List Block :=
  blocks.insertionSort (fun b1 b2 => compareIndex b1 b2 ≤ 0)

/-- Source `handleBlockchainResponse`, applied to the block sequence that
`JSON.parse(message.data)` yields. -/
def handleBlockchainResponse (H : String → String) (s : Node) (parsed : List Block) :
    Option Node :=
  let receivedBlocks := sortByIndex parsed
  match receivedBlocks.getLast?, getLatestBlock s.blockchain with
  | some latestBlockReceived, some latestBlockHeld =>
    if latestBlockReceived.index > latestBlockHeld.index then
      if latestBlockHeld.hash = latestBlockReceived.previousHash then
        let s1 := { s with blockchain := s.blockchain ++ [latestBlockReceived] }
        some (broadcast s1 (responseLatestMsg s1.blockchain))
      else if receivedBlocks.length = 1 then
        some (broadcast s queryAllMsg)
      else
        some (replaceChain H s receivedBlocks)
    else
      some s
  | _, _ => none

/-! Session bookkeeping -/

/-- `Array.prototype.indexOf`: position of the first occurrence, `-1` when absent. -/
def indexOf (sockets : List Socket) (ws : Socket) : Int :=
  if ws ∈ sockets then (sockets.indexOf ws : Int) else -1

/-- `Array.prototype.splice(start, deleteCount)` without inserted items: a negative
`start` counts from the end, and the range is clipped to the array. -/
def splice (sockets : List Socket) (start : Int) (deleteCount : Nat) : List Socket :=
  let len := sockets.length
  let actualStart : Nat :=
    if start < 0 then (max ((len : Int) + start) 0).toNat else min start.toNat len
  let actualDeleteCount := min deleteCount (len - actualStart)
  sockets.take actualStart ++ sockets.drop (actualStart + actualDeleteCount)

/-- Source `closeConnection`: `sockets.splice(sockets.indexOf(ws), 1)`. -/
def closeConnection (s : Node) (ws : Socket) : Node :=
  { s with sockets := splice s.sockets (indexOf s.sockets ws) 1 }

/-! Message handler -/

/-- What `JSON.parse(message.data)` makes of the payload of a `RESPONSE_BLOCKCHAIN`
message. `malformed`: the call raises or its result has no `sort` (absent payload, text
that is not JSON, a value that is not an array). `blocks`: an array of objects whose five
fields have the constructor's types. An array with other elements is not represented
here; the source performs no check on the elements and handles it like any other array. -/
inductive Payload where
  | malformed
  | blocks (parsed : List Block)
deriving DecidableEq

/-- What `JSON.parse(data)` makes of an inbound text: either it raises, or it gives a
message with a type tag and a payload. -/
inductive Inbound where
  | unparseable
  | message (type : Nat) (data : Payload)
deriving DecidableEq

/-- The result of running a handler: the variables when it stopped, and whether it stopped
by raising an error. An error leaves the variables as they were when it was raised. -/
structure Outcome where
  state : Node
  raised : Bool
deriving DecidableEq

/-- The `message` listener installed by `initMessageHandler(ws)`. Both `JSON.parse` calls
and both reads of `.index` come before the first assignment or send, so a raised error
finds the state as it was on entry. -/
def initMessageHandler (H : String → String) (s : Node) (ws : Socket) : Inbound → Outcome
  | Inbound.unparseable => { state := s, raised := true }
  | Inbound.message type data =>
    if type = MessageType.QUERY_LATEST then
      { state := write s ws (responseLatestMsg s.blockchain), raised := false }
    else if type = MessageType.QUERY_ALL then
      { state := write s ws (responseChainMsg s.blockchain), raised := false }
    else if type = MessageType.RESPONSE_BLOCKCHAIN then
      match data with
      | Payload.malformed => { state := s, raised := true }
      | Payload.blocks parsed =>
        match handleBlockchainResponse H s parsed with
        | none => { state := s, raised := true }
        | some s1 => { state := s1, raised := false }
    else
      { state := s, raised := false }

/-! Runs of the ledger -/

/-- One call that can change the held chain. -/
inductive Op where
  | addBlock (newBlock : Block)
  | replaceChain (newBlocks : List Block)
  | handleBlockchainResponse (parsed : List Block)

/-- Perform one call. -/
def Op.apply (H : String → String) (s : Node) : Op → Option Node
  | Op.addBlock newBlock => Naivechain.addBlock H s newBlock
  | Op.replaceChain newBlocks => some (Naivechain.replaceChain H s newBlocks)
  | Op.handleBlockchainResponse parsed => Naivechain.handleBlockchainResponse H s parsed

/-- Perform a sequence of calls, stopping at the first that raises. -/
def run (H : String → String) : Node → List Op → Option Node
  | s, [] => some s
  | s, op :: ops =>
    match op.apply H s with
    | none => none
    | some s1 => run H s1 ops

/-- States the node can be in after some sequence of calls from startup. -/
def Reachable (H : String → String) (s : Node) : Prop :=
  ∃ ops : List Op, run H initialNode ops = some s

/-! JavaScript values

The definitions above take the fields of a block to have the types the `Block` constructor
is meant for. The held chain can also hold objects straight from `JSON.parse`, whose fields
are arbitrary JSON values, and all arithmetic on numbers is arithmetic on doubles. The
definitions of this part follow the source on such values. An element of the held chain
or of a received array is taken to be an object; the text of a number and the hash
function are parameters. -/

namespace Raw

/-- A JavaScript number: a finite double, given by its exact value, or one of the three
special values. The two zeros are not told apart (`-0 === 0`, and both print as `0`). -/
inductive JsNumber where
  | finite (q : ℚ)
  | nan
  | posInf
  | negInf
deriving DecidableEq

/-- A JavaScript value as it occurs in a field of a block. `undefined` is also what reading
an absent key gives. `compound` stands for an array or a plain object and carries the text
that string conversion gives for it. -/
inductive JsValue where
  | undefined
  | null
  | bool (b : Bool)
  | number (x : JsNumber)
  | string (s : String)
  | compound (text : String)
deriving DecidableEq

/-- An object used as a block: what reading each of the five keys gives, and whether its
own keys are exactly `index, previousHash, timestamp, data, hash` in this order, as they are
for an object made by the `Block` constructor. -/
structure RawBlock where
  index : JsValue
  previousHash : JsValue
  timestamp : JsValue
  data : JsValue
  hash : JsValue
  standardLayout : Bool
deriving DecidableEq

/-- The integer `⌊log₂ (n / d)⌋` for positive `n` and `d`. -/
def floorLog2 (n d : Nat) : Int :=
  let e0 : Int := (Nat.log2 n : Int) - (Nat.log2 d : Int)
  if (if 0 ≤ e0 then d * 2 ^ e0.toNat ≤ n else d ≤ n * 2 ^ (-e0).toNat) then e0 else e0 - 1

/-- The integer nearest to `n / d`, the even one of the two in a tie. -/
def roundHalfEven (n d : Nat) : Nat :=
  let f := n / d
  let r := n % d
  if 2 * r < d then f else if d < 2 * r then f + 1 else if f % 2 = 0 then f else f + 1

/-- The double nearest to a rational (IEEE 754 binary64, round to nearest, ties to even):
53 significant bits, exponents from -1022 to 1023, infinity on overflow. -/
def roundDouble (q : ℚ) : JsNumber :=
  if q = 0 then JsNumber.finite 0
  else
    let n := q.num.natAbs
    let d := q.den
    let e : Int := max (floorLog2 n d) (-1022)
    let s : Int := 52 - e
    let m : Nat :=
      if 0 ≤ s then roundHalfEven (n * 2 ^ s.toNat) d else roundHalfEven n (d * 2 ^ (-s).toNat)
    let magnitude : ℚ := (m : ℚ) * (2 : ℚ) ^ (-s)
    if (2 : ℚ) ^ (1024 : Nat) ≤ magnitude then
      (if 0 < q then JsNumber.posInf else JsNumber.negInf)
    else
      JsNumber.finite (if 0 < q then magnitude else -magnitude)

/-- Addition of two numbers. -/
def numAdd : JsNumber → JsNumber → JsNumber
  | JsNumber.finite x, JsNumber.finite y => roundDouble (x + y)
  | JsNumber.nan, _ => JsNumber.nan
  | _, JsNumber.nan => JsNumber.nan
  | JsNumber.posInf, JsNumber.negInf => JsNumber.nan
  | JsNumber.negInf, JsNumber.posInf => JsNumber.nan
  | JsNumber.posInf, _ => JsNumber.posInf
  | _, JsNumber.posInf => JsNumber.posInf
  | JsNumber.negInf, _ => JsNumber.negInf
  | _, JsNumber.negInf => JsNumber.negInf

/-- The two built-in functions the source relies on and that are not modelled here:
`sha256 v` is `CryptoJS.SHA256(v).toString()`, and `numberToString x` is the text
JavaScript gives for the number `x` (the language's number-to-string conversion). -/
structure Builtins where
  sha256 : JsValue → String
  numberToString : JsNumber → String

/-- String conversion of a value, as `+` applies it next to a string and as
`x.toString()` returns it. -/
def toStr (js : Builtins) : JsValue → String
  | JsValue.undefined => "undefined"
  | JsValue.null => "null"
  | JsValue.bool true => "true"
  | JsValue.bool false => "false"
  | JsValue.number x => js.numberToString x
  | JsValue.string s => s
  | JsValue.compound text => text

/-- The number a value stands for in an addition, for the values `+` treats as numbers;
`none` for a string, an array or an object, which make `+` a concatenation. -/
def asNumber : JsValue → Option JsNumber
  | JsValue.undefined => some JsNumber.nan
  | JsValue.null => some (JsNumber.finite 0)
  | JsValue.bool true => some (JsNumber.finite 1)
  | JsValue.bool false => some (JsNumber.finite 0)
  | JsValue.number x => some x
  | JsValue.string _ => none
  | JsValue.compound _ => none

/-- The operator `+`: addition of numbers when neither side is a string, an array or an
object, concatenation of the two texts otherwise. -/
def jsAdd (js : Builtins) (a b : JsValue) : JsValue :=
  match asNumber a, asNumber b with
  | some x, some y => JsValue.number (numAdd x y)
  | _, _ => JsValue.string (toStr js a ++ toStr js b)

/-- The operator `===` between fields of two different objects: equal primitive values of
the same type; `NaN` equals nothing, and two arrays or objects are never the same one. -/
def strictEq : JsValue → JsValue → Bool
  | JsValue.undefined, JsValue.undefined => true
  | JsValue.null, JsValue.null => true
  | JsValue.bool a, JsValue.bool b => a == b
  | JsValue.number JsNumber.nan, JsValue.number _ => false
  | JsValue.number x, JsValue.number y => x == y
  | JsValue.string a, JsValue.string b => a == b
  | _, _ => false

/-- Whether a value is `===` to a value equal to it: so is every primitive value except
`NaN`; an array or object is not, since two of them are never the same one. -/
def selfEqual : JsValue → Bool
  | JsValue.compound _ => false
  | JsValue.number JsNumber.nan => false
  | _ => true

/-- The method call `x.toString()`: `none` when it raises (on `undefined` and `null`). -/
def toStringMethod (js : Builtins) : JsValue → Option String
  | JsValue.undefined => none
  | JsValue.null => none
  | v => some (toStr js v)

/-- The `Block` constructor: `toString()` is called on the two hashes. -/
def newBlock (js : Builtins) (index previousHash timestamp data hash : JsValue) :
    Option RawBlock :=
  match toStringMethod js previousHash, toStringMethod js hash with
  | some p, some h =>
    some
      { index := index
        previousHash := JsValue.string p
        timestamp := timestamp
        data := data
        hash := JsValue.string h
        standardLayout := true }
  | _, _ => none

/-- Source `getGenesisBlock`. -/
def getGenesisBlock : RawBlock :=
  { index := JsValue.number (JsNumber.finite 0)
    previousHash := JsValue.string "0"
    timestamp := JsValue.number (JsNumber.finite 1465154705)
    data := JsValue.string "my genesis block!!"
    hash := JsValue.string "816534932c2b7154836da6afc367695e6337db8a921823784c14378abed4f7d7"
    standardLayout := true }

/-- Source `calculateHash`: `SHA256(index + previousHash + timestamp + data).toString()`. -/
def calculateHash (js : Builtins) (index previousHash timestamp data : JsValue) : String :=
  js.sha256 (jsAdd js (jsAdd js (jsAdd js index previousHash) timestamp) data)

/-- Source `calculateHashForBlock`. -/
def calculateHashForBlock (js : Builtins) (block : RawBlock) : String :=
  calculateHash js block.index block.previousHash block.timestamp block.data

/-- Source `isValidNewBlock`. -/
def isValidNewBlock (js : Builtins) (newBlock previousBlock : RawBlock) : Bool :=
  if !strictEq (jsAdd js previousBlock.index (JsValue.number (JsNumber.finite 1))) newBlock.index then
    false
  else if !strictEq previousBlock.hash newBlock.previousHash then
    false
  else if !strictEq (JsValue.string (calculateHashForBlock js newBlock)) newBlock.hash then
    false
  else
    true

/-- Source `getLatestBlock`. -/
def getLatestBlock (blockchain : List RawBlock) : Option RawBlock :=
  blockchain.getLast?

/-- The test `JSON.stringify(block) !== JSON.stringify(getGenesisBlock())`. The two texts
are equal exactly when the object has the genesis block's five keys in the same order,
no other key, and the same five values: a different key order, an extra or missing key, or
a different value each changes the text. -/
def jsonTextDiffersFromGenesis (block : RawBlock) : Bool :=
  decide (block ≠ getGenesisBlock)

/-- The `for` loop of `isValidChain`, as in `Naivechain.isValidChainLoop`. -/
def isValidChainLoop (js : Builtins) (blockchainToValidate : List RawBlock) :
    Nat → Nat → List RawBlock → Bool
  | 0, _, _ => true
  | remaining + 1, i, tempBlocks =>
    match blockchainToValidate[i]?, tempBlocks[i - 1]? with
    | some newBlock, some previousBlock =>
      if isValidNewBlock js newBlock previousBlock then
        isValidChainLoop js blockchainToValidate remaining (i + 1) (tempBlocks ++ [newBlock])
      else
        false
    | _, _ => false

/-- Source `isValidChain`. -/
def isValidChain (js : Builtins) (blockchainToValidate : List RawBlock) : Bool :=
  match blockchainToValidate[0]? with
  | none => false
  | some first =>
    if jsonTextDiffersFromGenesis first then
      false
    else
      isValidChainLoop js blockchainToValidate (blockchainToValidate.length - 1) 1 [first]

/-- Source `generateNextBlock`; `now` is the reading of `new Date().getTime()` and
`blockData` is `req.body.data`. `none` when the constructor raises. -/
def generateNextBlock (js : Builtins) (blockchain : List RawBlock) (now : Nat)
    (blockData : JsValue) : Option RawBlock :=
  match getLatestBlock blockchain with
  | none => none
  | some previousBlock =>
    let nextIndex := jsAdd js previousBlock.index (JsValue.number (JsNumber.finite 1))
    let nextTimestamp := JsValue.number (roundDouble ((now : ℚ) / 1000))
    let nextHash := calculateHash js nextIndex previousBlock.hash nextTimestamp blockData
    newBlock js nextIndex previousBlock.hash nextTimestamp blockData (JsValue.string nextHash)

/-- Source `addBlock`, on the variable `blockchain` alone. -/
def addBlock (js : Builtins) (blockchain : List RawBlock) (newBlock : RawBlock) :
    Option (List RawBlock) :=
  match getLatestBlock blockchain with
  | none => none
  | some latest =>
    if isValidNewBlock js newBlock latest then
      some (blockchain ++ [newBlock])
    else
      some blockchain

end Raw

/-- A block with fields of the constructor's types, as an object. -/
def Block.toRaw (b : Block) : Raw.RawBlock :=
  { index := Raw.JsValue.number (Raw.JsNumber.finite (b.index : ℚ))
    previousHash := Raw.JsValue.string b.previousHash
    timestamp := Raw.JsValue.number (Raw.JsNumber.finite b.timestamp)
    data := Raw.JsValue.string b.data
    hash := Raw.JsValue.string b.hash
    standardLayout := true }

/-! Sample data -/

/-- A stand-in for the hash primitive, used to evaluate the definitions on examples. -/
def toyHash (text : String) : String :=
  "h(" ++ text ++ ")"

/-- A block that links to the genesis block by `previousHash` only: its index is 5 and its
stored hash is not a hash of its fields. -/
def forgedBlock : Block :=
  { index := 5
    previousHash := getGenesisBlock.hash
    timestamp := 0
    data := "forged"
    hash := "forged" }

/-- A well-formed successor of the genesis block under `toyHash`. -/
def sampleBlock1 : Block :=
  { index := 1
    previousHash := getGenesisBlock.hash
    timestamp := 1465154706
    data := "A"
    hash := calculateHash toyHash 1 getGenesisBlock.hash 1465154706 "A" }

/-- Another well-formed successor of the genesis block, with a different payload. -/
def sampleBlock1b : Block :=
  { index := 1
    previousHash := getGenesisBlock.hash
    timestamp := 1465154706
    data := "B"
    hash := calculateHash toyHash 1 getGenesisBlock.hash 1465154706 "B" }

/-- A well-formed successor of `sampleBlock1` under `toyHash`. -/
def sampleBlock2 : Block :=
  { index := 2
    previousHash := sampleBlock1.hash
    timestamp := 1465154707
    data := "C"
    hash := calculateHash toyHash 2 sampleBlock1.hash 1465154707 "C" }

/-- A node holding only the genesis block, with two open sessions. -/
def sampleNode : Node :=
  { blockchain := [getGenesisBlock], sockets := [7, 8], outbox := [] }

/-- A lone block of index 3 that does not link to the genesis block. -/
def strayBlock : Block :=
  { index := 3
    previousHash := "elsewhere"
    timestamp := 1465154708
    data := "D"
    hash := "stray" }

/-- The text of a number, for the examples: `numberToString` above for finite numbers,
which writes integers of magnitude up to `2 ^ 53` and short decimal fractions as JavaScript
does. -/
def Raw.toyNumberToString : Raw.JsNumber → String
  | Raw.JsNumber.finite q => numberToString q
  | Raw.JsNumber.nan => "NaN"
  | Raw.JsNumber.posInf => "Infinity"
  | Raw.JsNumber.negInf => "-Infinity"

/-- Stand-ins for the two built-in functions, used to evaluate the definitions on
examples. -/
def Raw.toyBuiltins : Raw.Builtins :=
  { sha256 := fun v =>
      match v with
      | Raw.JsValue.string s => "h(" ++ s ++ ")"
      | _ => "h(?)"
    numberToString := Raw.toyNumberToString }

/-- The genesis block's five values in an object whose keys are not in the constructor's
order. -/
def Raw.reorderedGenesis : Raw.RawBlock :=
  { Raw.getGenesisBlock with standardLayout := false }

/-- A block of index `2 ^ 53` that links to the genesis block by `previousHash`. -/
def Raw.bigTip : Raw.RawBlock :=
  { index := Raw.JsValue.number (Raw.JsNumber.finite 9007199254740992)
    previousHash := Raw.getGenesisBlock.hash
    timestamp := Raw.JsValue.number (Raw.JsNumber.finite 0)
    data := Raw.JsValue.string "big"
    hash := Raw.JsValue.string "big"
    standardLayout := true }

/-- A block of index `2 ^ 53` again, linked to `bigTip` and with a correctly recomputed
hash under `toyBuiltins`. -/
def Raw.bigTwin : Raw.RawBlock :=
  { index := Raw.JsValue.number (Raw.JsNumber.finite 9007199254740992)
    previousHash := Raw.JsValue.string "big"
    timestamp := Raw.JsValue.number (Raw.JsNumber.finite 0)
    data := Raw.JsValue.string "twin"
    hash := Raw.JsValue.string (Raw.calculateHash Raw.toyBuiltins
      (Raw.JsValue.number (Raw.JsNumber.finite 9007199254740992)) (Raw.JsValue.string "big")
      (Raw.JsValue.number (Raw.JsNumber.finite 0)) (Raw.JsValue.string "twin"))
    standardLayout := true }

/-- A block of index 1 linked to the genesis block whose `hash` is the number 5, as a peer
can send it. -/
def Raw.numericHashTip : Raw.RawBlock :=
  { index := Raw.JsValue.number (Raw.JsNumber.finite 1)
    previousHash := Raw.getGenesisBlock.hash
    timestamp := Raw.JsValue.number (Raw.JsNumber.finite 0)
    data := Raw.JsValue.string "x"
    hash := Raw.JsValue.number (Raw.JsNumber.finite 5)
    standardLayout := true }

/-- A well-formed successor of the genesis block under `toyBuiltins`. -/
def Raw.sampleRaw1 : Raw.RawBlock :=
  { index := Raw.JsValue.number (Raw.JsNumber.finite 1)
    previousHash := Raw.getGenesisBlock.hash
    timestamp := Raw.JsValue.number (Raw.JsNumber.finite 1465154706)
    data := Raw.JsValue.string "A"
    hash := Raw.JsValue.string (Raw.calculateHash Raw.toyBuiltins
      (Raw.JsValue.number (Raw.JsNumber.finite 1)) Raw.getGenesisBlock.hash
      (Raw.JsValue.number (Raw.JsNumber.finite 1465154706)) (Raw.JsValue.string "A"))
    standardLayout := true }

/-! Auxiliary lemmas -/

theorem broadcast_fold (message : Message) (l : List Socket) (acc : Node) :
    l.foldl (fun a socket => write a socket message) acc
      = { acc with outbox := acc.outbox ++ l.map (fun ws => (ws, message)) } := by
  induction l generalizing acc with
  | nil => simp
  | cons ws l ih =>
    rw [List.foldl_cons, ih]
    simp [write]

theorem broadcast_eq (s : Node) (message : Message) :
    broadcast s message
      = { s with outbox := s.outbox ++ s.sockets.map (fun ws => (ws, message)) } :=
  broadcast_fold message s.sockets s

theorem isValidNewBlock_eq_true (H : String → String) (newBlock previousBlock : Block) :
    isValidNewBlock H newBlock previousBlock = true ↔
      newBlock.index = previousBlock.index + 1
        ∧ newBlock.previousHash = previousBlock.hash
        ∧ calculateHash H newBlock.index newBlock.previousHash newBlock.timestamp
            newBlock.data = newBlock.hash := by
  unfold isValidNewBlock calculateHashForBlock
  by_cases h1 : previousBlock.index + 1 = newBlock.index
  · by_cases h2 : previousBlock.hash = newBlock.previousHash
    · by_cases h3 : calculateHash H newBlock.index newBlock.previousHash newBlock.timestamp
          newBlock.data = newBlock.hash
      · simp [h1, h2, h3]
      · simp [h1, h2, h3]
    · have h2' : ¬ newBlock.previousHash = previousBlock.hash := fun h => h2 h.symm
      simp [h1, h2, h2']
  · have h1' : ¬ newBlock.index = previousBlock.index + 1 := fun h => h1 h.symm
    simp [h1, h1']

theorem isValidChainLoop_take (H : String → String) (bs : List Block) :
    ∀ (k i : Nat), 1 ≤ i → i + k = bs.length →
      (isValidChainLoop H bs k i (bs.take i) = true ↔
        ∀ (j : Nat) (hj : j < bs.length), i ≤ j →
          isValidNewBlock H bs[j] bs[j - 1] = true) := by
  intro k
  induction k with
  | zero =>
    intro i _ hik
    simp only [isValidChainLoop, true_iff]
    intro j hj hij
    omega
  | succ k ih =>
    intro i hi hik
    have hlt : i < bs.length := by omega
    have hlt' : i - 1 < bs.length := by omega
    have h1 : bs[i]? = some bs[i] := List.getElem?_eq_getElem hlt
    have h2 : (bs.take i)[i - 1]? = some bs[i - 1] := by
      rw [List.getElem?_take_of_lt (by omega)]
      exact List.getElem?_eq_getElem hlt'
    have h3 : bs.take i ++ [bs[i]] = bs.take (i + 1) := by
      rw [List.take_succ, h1]; rfl
    simp only [isValidChainLoop, h1, h2, h3]
    by_cases hv : isValidNewBlock H bs[i] bs[i - 1] = true
    · rw [if_pos hv, ih (i + 1) (by omega) (by omega)]
      constructor
      · intro h j hj hij
        rcases Nat.eq_or_lt_of_le hij with heq | hlt2
        · subst heq; exact hv
        · exact h j hj hlt2
      · intro h j hj hij
        exact h j hj (by omega)
    · rw [if_neg hv]
      constructor
      · intro h; exact absurd h (by simp)
      · intro h; exact absurd (h i hlt (le_refl i)) hv

theorem isValidChain_eq_true (H : String → String) (C : List Block) :
    isValidChain H C = true ↔
      ∃ _ : 0 < C.length, C[0] = getGenesisBlock ∧
        ∀ (i : Nat) (hi : i < C.length), 0 < i →
          isValidNewBlock H C[i] C[i - 1] = true := by
  cases C with
  | nil => simp [isValidChain]
  | cons first rest =>
    have hloop := isValidChainLoop_take H (first :: rest) rest.length 1 (le_refl 1)
      (by simp [Nat.add_comm])
    simp only [List.take_succ_cons, List.take_zero] at hloop
    by_cases hg : first = getGenesisBlock
    · have hv : isValidChain H (first :: rest)
          = isValidChainLoop H (first :: rest) rest.length 1 [first] := by
        simp [isValidChain, hg]
      rw [hv, hloop]
      constructor
      · intro h
        exact ⟨Nat.succ_pos _, hg, fun i hi hpos => h i hi hpos⟩
      · rintro ⟨_, _, h⟩ j hj hij
        exact h j hj hij
    · simp [isValidChain, hg]

/-- In branch 3a the received tip is pushed as it is and the new tip is broadcast; no
validity check is involved. -/
theorem handleBlockchainResponse_extends (H : String → String) (s : Node)
    (parsed : List Block) (receivedTip heldTip : Block)
    (hTip : (sortByIndex parsed).getLast? = some receivedTip)
    (hHeld : getLatestBlock s.blockchain = some heldTip)
    (hIdx : receivedTip.index > heldTip.index)
    (hPrev : heldTip.hash = receivedTip.previousHash) :
    handleBlockchainResponse H s parsed
      = some { blockchain := s.blockchain ++ [receivedTip]
               sockets := s.sockets
               outbox := s.outbox ++ s.sockets.map (fun ws =>
                 (ws, { type := MessageType.RESPONSE_BLOCKCHAIN, data := some [receivedTip] })) } := by
  unfold handleBlockchainResponse
  simp only [hTip, hHeld]
  rw [if_pos hIdx, if_pos hPrev, broadcast_eq]
  simp [responseLatestMsg, getLatestBlock]

/-- A sequence already in ascending index order is left as it is by the sort. -/
theorem sortByIndex_of_ascending (blocks : List Block)
    (hAsc : blocks.Pairwise (fun b1 b2 => b1.index ≤ b2.index)) :
    sortByIndex blocks = blocks := by
  apply List.Sorted.insertionSort_eq
  refine List.Pairwise.imp ?_ hAsc
  intro a b hab
  simp only [compareIndex]
  omega

/-- Closing a session that is not in the list removes the last session of the list:
`indexOf` gives `-1` and `splice(-1, 1)` deletes the final element. -/
theorem closeConnection_absent (s : Node) (ws : Socket) (h : ws ∉ s.sockets) :
    (closeConnection s ws).sockets = s.sockets.dropLast := by
  simp only [closeConnection, indexOf, if_neg h, splice]
  rw [List.dropLast_eq_take]
  rcases Nat.eq_zero_or_pos s.sockets.length with h0 | hpos
  · have : s.sockets = [] := List.length_eq_zero.1 h0
    simp [this]
  · have h1 : (max ((s.sockets.length : Int) + -1) 0).toNat = s.sockets.length - 1 := by
      omega
    have h2 : min 1 (s.sockets.length - (s.sockets.length - 1)) = 1 := by omega
    simp only [show ((-1 : Int) < 0) from by decide, if_true, h1, h2]
    have h3 : s.sockets.length - 1 + 1 = s.sockets.length := by omega
    rw [h3, List.drop_length, List.append_nil]

/-! The claims -/

/-- C1 (fails on the code): the held chain is not always accepted by `isValidChain`. For
every hash function there is a state reachable from startup, by one call of
`handleBlockchainResponse` with a single block of index 5 whose `previousHash` is the
genesis hash, whose chain `isValidChain` rejects. -/
theorem reachable_chain_not_valid (H : String → String) :
    ∃ s : Node, Reachable H s ∧ s.blockchain = [getGenesisBlock, forgedBlock]
      ∧ isValidChain H s.blockchain = false := by
  refine ⟨{ blockchain := [getGenesisBlock, forgedBlock], sockets := [], outbox := [] },
    ⟨[Op.handleBlockchainResponse [forgedBlock]], ?_⟩, rfl, ?_⟩
  · have h := handleBlockchainResponse_extends H initialNode [forgedBlock] forgedBlock
      getGenesisBlock (by decide) (by decide) (by decide) (by decide)
    simp only [run, Op.apply, h]
    rfl
  · have hnot : isValidNewBlock H forgedBlock getGenesisBlock = false := by
      simp [isValidNewBlock, forgedBlock, getGenesisBlock]
    simp [isValidChain, isValidChainLoop, hnot]

/-- C2 (fails on the code): in branch 3a the result is not that of `addBlock`. Against the
chain `[genesis]`, the received block `forgedBlock` has a larger index than the held tip
and its `previousHash` is the held tip's hash; `handleBlockchainResponse` appends it,
while `addBlock` rejects it and keeps `[genesis]`. -/
theorem branch3a_differs_from_addBlock (H : String → String) :
    getLatestBlock initialNode.blockchain = some getGenesisBlock
      ∧ forgedBlock.index > getGenesisBlock.index
      ∧ forgedBlock.previousHash = getGenesisBlock.hash
      ∧ isValidNewBlock H forgedBlock getGenesisBlock = false
      ∧ (handleBlockchainResponse H initialNode [forgedBlock]).map Node.blockchain
          = some [getGenesisBlock, forgedBlock]
      ∧ (addBlock H initialNode forgedBlock).map Node.blockchain = some [getGenesisBlock] := by
  have hnot : isValidNewBlock H forgedBlock getGenesisBlock = false := by
    simp [isValidNewBlock, forgedBlock, getGenesisBlock]
  refine ⟨by decide, by decide, by decide, hnot, ?_, ?_⟩
  · rw [handleBlockchainResponse_extends H initialNode [forgedBlock] forgedBlock
      getGenesisBlock (by decide) (by decide) (by decide) (by decide)]
    rfl
  · have hl : getLatestBlock initialNode.blockchain = some getGenesisBlock := by decide
    simp only [addBlock, hl, hnot]
    rfl

/-- C3: after `replaceChain(candidate)` the held chain is `candidate` when
`isValidChain(candidate)` holds and `candidate` is strictly longer than the held chain, and
the state is untouched otherwise; a candidate of equal length never replaces the held
chain. -/
theorem replaceChain_chain (H : String → String) (s : Node) (candidate : List Block) :
    (replaceChain H s candidate).blockchain
        = (if isValidChain H candidate = true ∧ candidate.length > s.blockchain.length
            then candidate else s.blockchain)
      ∧ (¬ (isValidChain H candidate = true ∧ candidate.length > s.blockchain.length) →
          replaceChain H s candidate = s)
      ∧ (candidate.length = s.blockchain.length → replaceChain H s candidate = s) := by
  have key : ¬ (isValidChain H candidate = true ∧ candidate.length > s.blockchain.length) →
      replaceChain H s candidate = s := by
    intro h
    unfold replaceChain
    rw [if_neg]
    simpa using h
  refine ⟨?_, key, ?_⟩
  · by_cases h : isValidChain H candidate = true ∧ candidate.length > s.blockchain.length
    · rw [if_pos h]
      unfold replaceChain
      rw [if_pos (by simpa using h), broadcast_eq]
    · rw [if_neg h, key h]
  · intro hlen
    exact key (fun h => by omega)

/-- Witness for C3: a valid candidate that differs from the held chain but has the same
length does not replace it. -/
theorem replaceChain_chain_witness :
    isValidChain toyHash [getGenesisBlock, sampleBlock1b] = true
      ∧ [getGenesisBlock, sampleBlock1b] ≠ [getGenesisBlock, sampleBlock1]
      ∧ [getGenesisBlock, sampleBlock1b].length
          = ({ sampleNode with blockchain := [getGenesisBlock, sampleBlock1] } : Node).blockchain.length
      ∧ replaceChain toyHash { sampleNode with blockchain := [getGenesisBlock, sampleBlock1] }
            [getGenesisBlock, sampleBlock1b]
          = { sampleNode with blockchain := [getGenesisBlock, sampleBlock1] } :=
  ⟨by decide, by decide, by decide,
    (replaceChain_chain toyHash { sampleNode with blockchain := [getGenesisBlock, sampleBlock1] }
      [getGenesisBlock, sampleBlock1b]).2.2 (by decide)⟩

/-- C6: when `isValidNewBlock(candidate, latest())` is true, `addBlock(candidate)` appends
the candidate: the length grows by exactly 1, every position below the old length holds
the same block as before, and the new last block is the candidate. -/
theorem addBlock_valid (H : String → String) (s : Node) (candidate latest : Block)
    (hLatest : getLatestBlock s.blockchain = some latest)
    (hValid : isValidNewBlock H candidate latest = true) :
    addBlock H s candidate = some { s with blockchain := s.blockchain ++ [candidate] }
      ∧ (s.blockchain ++ [candidate]).length = s.blockchain.length + 1
      ∧ (∀ i : Nat, i < s.blockchain.length →
          (s.blockchain ++ [candidate])[i]? = s.blockchain[i]?)
      ∧ (s.blockchain ++ [candidate]).getLast? = some candidate := by
  refine ⟨?_, by simp, fun i hi => List.getElem?_append_left hi, by simp⟩
  simp only [addBlock, hLatest, hValid]
  rfl

/-- Witness for C6: appending `sampleBlock1` to the chain `[genesis]`. -/
theorem addBlock_valid_witness :
    getLatestBlock sampleNode.blockchain = some getGenesisBlock
      ∧ isValidNewBlock toyHash sampleBlock1 getGenesisBlock = true
      ∧ addBlock toyHash sampleNode sampleBlock1
          = some { sampleNode with blockchain := sampleNode.blockchain ++ [sampleBlock1] } :=
  ⟨by decide, by decide,
    (addBlock_valid toyHash sampleNode sampleBlock1 getGenesisBlock (by decide) (by decide)).1⟩

/-- C9 (fails on the code): closing a session that is not in the list is not a no-op.
With sessions `[7, 8]`, closing the absent session 9 removes session 8; and with sessions
`[7, 8, 9]`, closing session 8 twice leaves `[7]` where closing it once leaves `[7, 9]`. -/
theorem closeConnection_absent_removes_last :
    (9 ∉ sampleNode.sockets)
      ∧ indexOf sampleNode.sockets 9 = -1
      ∧ (closeConnection sampleNode 9).sockets = [7]
      ∧ (closeConnection { sampleNode with sockets := [7, 8, 9] } 8).sockets = [7, 9]
      ∧ (closeConnection (closeConnection { sampleNode with sockets := [7, 8, 9] } 8) 8).sockets
          = [7] := by
  decide

/-- C10: in branch 3c (more than one received block, in ascending index order, tip index
above the held tip's, tip `previousHash` different from the held tip's hash) the chain
becomes the received sequence and a `RESPONSE_BLOCKCHAIN` carrying only the last received
block is sent to every session when `isValidChain(received)` holds and `received` is
longer than the held chain; otherwise the state is unchanged and nothing is sent. -/
theorem handleBlockchainResponse_fullChain (H : String → String) (s : Node)
    (received : List Block) (heldTip receivedTip : Block)
    (hHeld : getLatestBlock s.blockchain = some heldTip)
    (hTip : received.getLast? = some receivedTip)
    (hLen : 1 < received.length)
    (hAsc : received.Pairwise (fun b1 b2 => b1.index ≤ b2.index))
    (hIdx : receivedTip.index > heldTip.index)
    (hPrev : receivedTip.previousHash ≠ heldTip.hash) :
    (isValidChain H received = true ∧ received.length > s.blockchain.length →
        handleBlockchainResponse H s received
          = some { blockchain := received
                   sockets := s.sockets
                   outbox := s.outbox ++ s.sockets.map (fun ws =>
                     (ws, { type := MessageType.RESPONSE_BLOCKCHAIN
                            data := some [receivedTip] })) })
      ∧ (¬ (isValidChain H received = true ∧ received.length > s.blockchain.length) →
          handleBlockchainResponse H s received = some s) := by
  have hsort := sortByIndex_of_ascending received hAsc
  have hPrev2 : ¬ heldTip.hash = receivedTip.previousHash := fun h => hPrev h.symm
  have hLen1 : ¬ received.length = 1 := by omega
  have hrun : handleBlockchainResponse H s received = some (replaceChain H s received) := by
    unfold handleBlockchainResponse
    simp only [hsort, hTip, hHeld]
    rw [if_pos hIdx, if_neg hPrev2, if_neg hLen1]
  constructor
  · intro h
    rw [hrun]
    unfold replaceChain
    rw [if_pos (by simpa using h), broadcast_eq]
    simp [responseLatestMsg, getLatestBlock, hTip]
  · intro h
    rw [hrun]
    unfold replaceChain
    rw [if_neg (by simpa using h)]

/-- Witness for C10: a node holding `[genesis]` with sessions 7 and 8 receives a valid
three-block chain whose tip does not link to the held tip, and adopts it. -/
theorem handleBlockchainResponse_fullChain_witness :
    getLatestBlock sampleNode.blockchain = some getGenesisBlock
      ∧ [getGenesisBlock, sampleBlock1, sampleBlock2].getLast? = some sampleBlock2
      ∧ 1 < [getGenesisBlock, sampleBlock1, sampleBlock2].length
      ∧ [getGenesisBlock, sampleBlock1, sampleBlock2].Pairwise
          (fun b1 b2 => b1.index ≤ b2.index)
      ∧ sampleBlock2.index > getGenesisBlock.index
      ∧ sampleBlock2.previousHash ≠ getGenesisBlock.hash
      ∧ isValidChain toyHash [getGenesisBlock, sampleBlock1, sampleBlock2] = true
      ∧ handleBlockchainResponse toyHash sampleNode [getGenesisBlock, sampleBlock1, sampleBlock2]
          = some { blockchain := [getGenesisBlock, sampleBlock1, sampleBlock2]
                   sockets := [7, 8]
                   outbox :=
                     [(7, { type := 2, data := some [sampleBlock2] }),
                      (8, { type := 2, data := some [sampleBlock2] })] } :=
  ⟨by decide, by decide, by decide, by decide, by decide, by decide, by decide,
    (handleBlockchainResponse_fullChain toyHash sampleNode
      [getGenesisBlock, sampleBlock1, sampleBlock2] getGenesisBlock sampleBlock2
      (by decide) (by decide) (by decide) (by decide) (by decide) (by decide)).1
      ⟨by decide, by decide⟩⟩

/-! Further lemmas -/

/-- Sorting keeps the elements. -/
theorem mem_sortByIndex (blocks : List Block) (b : Block) :
    b ∈ sortByIndex blocks ↔ b ∈ blocks :=
  (List.perm_insertionSort _ blocks).mem_iff

/-- Sorting keeps the length. -/
theorem length_sortByIndex (blocks : List Block) :
    (sortByIndex blocks).length = blocks.length :=
  List.length_insertionSort _ blocks

/-- The last block of a sorted non-empty sequence exists and is one of the received
blocks. -/
theorem getLast_sortByIndex (blocks : List Block) (hne : blocks ≠ []) :
    ∃ tip : Block, (sortByIndex blocks).getLast? = some tip ∧ tip ∈ blocks := by
  have hne2 : sortByIndex blocks ≠ [] := by
    intro h
    have := length_sortByIndex blocks
    rw [h] at this
    exact hne (List.length_eq_zero.1 this.symm)
  refine ⟨(sortByIndex blocks).getLast hne2, List.getLast?_eq_getLast _ hne2, ?_⟩
  exact (mem_sortByIndex blocks _).1 (List.getLast_mem hne2)

/-- C11: in branch 3b (exactly one received block, its index above the held tip's, its
`previousHash` different from the held tip's hash) `handleBlockchainResponse` raises no
error, leaves the held chain and the session list as they were, and sends exactly one
`QUERY_ALL` message (type 1, no data) to every registered session. -/
theorem handleBlockchainResponse_loneTip (H : String → String) (s : Node)
    (received heldTip : Block)
    (hHeld : getLatestBlock s.blockchain = some heldTip)
    (hIdx : received.index > heldTip.index)
    (hPrev : received.previousHash ≠ heldTip.hash) :
    handleBlockchainResponse H s [received]
      = some { blockchain := s.blockchain
               sockets := s.sockets
               outbox := s.outbox ++ s.sockets.map (fun ws =>
                 (ws, { type := 1, data := none })) } := by
  have hsort : sortByIndex [received] = [received] := rfl
  have hPrev2 : ¬ heldTip.hash = received.previousHash := fun h => hPrev h.symm
  unfold handleBlockchainResponse
  simp only [hsort, List.getLast?_singleton, hHeld]
  rw [if_pos hIdx, if_neg hPrev2, if_pos (by rfl), broadcast_eq]
  rfl

/-- Witness for C11: a node holding `[genesis]` with sessions 7 and 8 receives the lone
block `strayBlock` and asks both sessions for their full chains. -/
theorem handleBlockchainResponse_loneTip_witness :
    getLatestBlock sampleNode.blockchain = some getGenesisBlock
      ∧ strayBlock.index > getGenesisBlock.index
      ∧ strayBlock.previousHash ≠ getGenesisBlock.hash
      ∧ handleBlockchainResponse toyHash sampleNode [strayBlock]
          = some { blockchain := sampleNode.blockchain
                   sockets := sampleNode.sockets
                   outbox := sampleNode.outbox ++ sampleNode.sockets.map (fun ws =>
                     (ws, { type := 1, data := none })) } :=
  ⟨by decide, by decide, by decide,
    handleBlockchainResponse_loneTip toyHash sampleNode strayBlock getGenesisBlock
      (by decide) (by decide) (by decide)⟩

/-- C12: when the received sequence is non-empty and none of its blocks (so in particular
its highest-index block) has an index above the held tip's, `handleBlockchainResponse`
raises no error and returns the state as it was: chain, session list and sent messages are
unchanged. -/
theorem handleBlockchainResponse_notLonger (H : String → String) (s : Node)
    (received : List Block) (heldTip : Block)
    (hne : received ≠ [])
    (hHeld : getLatestBlock s.blockchain = some heldTip)
    (hIdx : ∀ b ∈ received, b.index ≤ heldTip.index) :
    handleBlockchainResponse H s received = some s := by
  obtain ⟨tip, hTip, hmem⟩ := getLast_sortByIndex received hne
  have hle : ¬ tip.index > heldTip.index := not_lt.2 (hIdx tip hmem)
  unfold handleBlockchainResponse
  simp only [hTip, hHeld]
  rw [if_neg hle]

/-- Witness for C12: two valid chains of length 2 that differ in their second block; the
node holding one of them takes no action on receiving the other. -/
theorem handleBlockchainResponse_notLonger_witness :
    [getGenesisBlock, sampleBlock1b] ≠ []
      ∧ getLatestBlock ({ sampleNode with blockchain := [getGenesisBlock, sampleBlock1] } : Node).blockchain
          = some sampleBlock1
      ∧ (∀ b ∈ [getGenesisBlock, sampleBlock1b], b.index ≤ sampleBlock1.index)
      ∧ handleBlockchainResponse toyHash
            { sampleNode with blockchain := [getGenesisBlock, sampleBlock1] }
            [getGenesisBlock, sampleBlock1b]
          = some { sampleNode with blockchain := [getGenesisBlock, sampleBlock1] } :=
  ⟨by decide, by decide, by decide,
    handleBlockchainResponse_notLonger toyHash
      { sampleNode with blockchain := [getGenesisBlock, sampleBlock1] }
      [getGenesisBlock, sampleBlock1b] sampleBlock1 (by decide) (by decide) (by decide)⟩

/-- On a non-empty held chain and a non-empty received sequence
`handleBlockchainResponse` does not raise. -/
theorem handleBlockchainResponse_isSome (H : String → String) (s : Node)
    (received : List Block) (hne : received ≠ []) (hHeld : s.blockchain ≠ []) :
    ∃ s1 : Node, handleBlockchainResponse H s received = some s1 := by
  obtain ⟨tip, hTip, _⟩ := getLast_sortByIndex received hne
  have hl : getLatestBlock s.blockchain = some (s.blockchain.getLast hHeld) :=
    List.getLast?_eq_getLast _ hHeld
  unfold handleBlockchainResponse
  simp only [hTip, hl]
  split_ifs <;> exact ⟨_, rfl⟩

/-- A message whose type tag is none of 0, 1, 2 falls through the `switch`: no error is
raised, nothing is sent, and the state is as it was. -/
theorem initMessageHandler_unknown_tag (H : String → String) (s : Node) (ws : Socket)
    (type : Nat) (data : Payload) (h0 : type ≠ 0) (h1 : type ≠ 1) (h2 : type ≠ 2) :
    initMessageHandler H s ws (Inbound.message type data) = { state := s, raised := false } := by
  simp [initMessageHandler, MessageType.QUERY_LATEST, MessageType.QUERY_ALL,
    MessageType.RESPONSE_BLOCKCHAIN, h0, h1, h2]

/-- C13 (fails on the code): a message text that does not parse makes the handler raise
an error, and so does a `RESPONSE_BLOCKCHAIN` whose payload does not parse: `JSON.parse`
raises and nothing in the source catches it. Shown on a node holding `[genesis]`, for a
message arriving on session 7. -/
theorem initMessageHandler_unparseable_raises :
    (initMessageHandler toyHash sampleNode 7 Inbound.unparseable).raised = true
      ∧ (initMessageHandler toyHash sampleNode 7
          (Inbound.message MessageType.RESPONSE_BLOCKCHAIN Payload.malformed)).raised = true := by
  decide

/-- C14 (fails on the code): on the empty block sequence `handleBlockchainResponse`
raises an error, for every hash function and every state; through the message handler, a
`RESPONSE_BLOCKCHAIN` whose payload is the empty sequence makes the handler raise. -/
theorem handleBlockchainResponse_empty_raises (H : String → String) (s : Node) (ws : Socket) :
    handleBlockchainResponse H s [] = none
      ∧ (initMessageHandler H s ws
          (Inbound.message MessageType.RESPONSE_BLOCKCHAIN (Payload.blocks []))).raised = true := by
  have h : handleBlockchainResponse H s [] = none := by
    simp [handleBlockchainResponse, sortByIndex]
  refine ⟨h, ?_⟩
  simp [initMessageHandler, MessageType.QUERY_LATEST, MessageType.QUERY_ALL,
    MessageType.RESPONSE_BLOCKCHAIN, h]

/-- C17: on `QUERY_LATEST` the handler sends exactly one message, to the requesting
session, of type `RESPONSE_BLOCKCHAIN` with payload `[latest block]`; on `QUERY_ALL` it
sends exactly one message, to the requesting session, of type `RESPONSE_BLOCKCHAIN` with
the full held chain as payload. In both cases no error is raised and the chain and the
session list are unchanged. -/
theorem initMessageHandler_query (H : String → String) (s : Node) (ws : Socket)
    (data : Payload) (latest : Block)
    (hLatest : getLatestBlock s.blockchain = some latest) :
    initMessageHandler H s ws (Inbound.message MessageType.QUERY_LATEST data)
        = { state := { blockchain := s.blockchain
                       sockets := s.sockets
                       outbox := s.outbox ++ [(ws, { type := 2, data := some [latest] })] }
            raised := false }
      ∧ initMessageHandler H s ws (Inbound.message MessageType.QUERY_ALL data)
          = { state := { blockchain := s.blockchain
                         sockets := s.sockets
                         outbox := s.outbox ++ [(ws, { type := 2, data := some s.blockchain })] }
              raised := false } := by
  constructor
  · simp [initMessageHandler, write, responseLatestMsg, hLatest,
      MessageType.RESPONSE_BLOCKCHAIN]
  · simp [initMessageHandler, write, responseChainMsg, MessageType.QUERY_LATEST,
      MessageType.QUERY_ALL, MessageType.RESPONSE_BLOCKCHAIN]

/-- Witness for C17: session 8 queries a node that holds `[genesis, sampleBlock1]`. -/
theorem initMessageHandler_query_witness :
    getLatestBlock ({ sampleNode with blockchain := [getGenesisBlock, sampleBlock1] } : Node).blockchain
        = some sampleBlock1
      ∧ initMessageHandler toyHash { sampleNode with blockchain := [getGenesisBlock, sampleBlock1] }
            8 (Inbound.message MessageType.QUERY_LATEST Payload.malformed)
          = { state := { blockchain := [getGenesisBlock, sampleBlock1]
                         sockets := [7, 8]
                         outbox := [(8, { type := 2, data := some [sampleBlock1] })] }
              raised := false }
      ∧ initMessageHandler toyHash { sampleNode with blockchain := [getGenesisBlock, sampleBlock1] }
            8 (Inbound.message MessageType.QUERY_ALL Payload.malformed)
          = { state := { blockchain := [getGenesisBlock, sampleBlock1]
                         sockets := [7, 8]
                         outbox := [(8, { type := 2,
                                          data := some [getGenesisBlock, sampleBlock1] })] }
              raised := false } :=
  ⟨by decide,
    (initMessageHandler_query toyHash { sampleNode with blockchain := [getGenesisBlock, sampleBlock1] }
      8 Payload.malformed sampleBlock1 (by decide)).1,
    (initMessageHandler_query toyHash { sampleNode with blockchain := [getGenesisBlock, sampleBlock1] }
      8 Payload.malformed sampleBlock1 (by decide)).2⟩

/-- What `replaceChain` does to the chain: nothing, or it installs a valid, strictly longer
candidate. -/
theorem replaceChain_cases (H : String → String) (s : Node) (newBlocks : List Block) :
    replaceChain H s newBlocks = s
      ∨ (isValidChain H newBlocks = true ∧ s.blockchain.length < newBlocks.length
          ∧ (replaceChain H s newBlocks).blockchain = newBlocks) := by
  by_cases h : isValidChain H newBlocks = true ∧ newBlocks.length > s.blockchain.length
  · right
    refine ⟨h.1, h.2, ?_⟩
    unfold replaceChain
    rw [if_pos (by simpa using h), broadcast_eq]
  · left
    unfold replaceChain
    rw [if_neg (by simpa using h)]

/-- What one call does to the chain: it keeps it, appends one block to a non-empty chain,
or replaces it through `replaceChain` by a valid, strictly longer chain. -/
theorem apply_chain (H : String → String) (s s1 : Node) (op : Op)
    (h : op.apply H s = some s1) :
    s1.blockchain = s.blockchain
      ∨ (s.blockchain ≠ [] ∧ ∃ b : Block, s1.blockchain = s.blockchain ++ [b])
      ∨ (∃ newBlocks : List Block, s1 = replaceChain H s newBlocks
          ∧ isValidChain H newBlocks = true
          ∧ s.blockchain.length < newBlocks.length
          ∧ s1.blockchain = newBlocks) := by
  have hrep : ∀ newBlocks : List Block, s1 = replaceChain H s newBlocks →
      s1.blockchain = s.blockchain
        ∨ (s.blockchain ≠ [] ∧ ∃ b : Block, s1.blockchain = s.blockchain ++ [b])
        ∨ (∃ newBlocks : List Block, s1 = replaceChain H s newBlocks
            ∧ isValidChain H newBlocks = true
            ∧ s.blockchain.length < newBlocks.length
            ∧ s1.blockchain = newBlocks) := by
    intro newBlocks hs
    rcases replaceChain_cases H s newBlocks with hc | ⟨hv, hl, hc⟩
    · left; rw [hs, hc]
    · right; right
      exact ⟨newBlocks, hs, hv, hl, by rw [hs, hc]⟩
  cases op with
  | addBlock newBlock =>
    simp only [Op.apply, addBlock] at h
    cases hl : getLatestBlock s.blockchain with
    | none => simp [hl] at h
    | some latest =>
      have hne : s.blockchain ≠ [] := by
        intro hnil
        simp [getLatestBlock, hnil] at hl
      simp only [hl] at h
      split_ifs at h
      · right; left
        refine ⟨hne, newBlock, ?_⟩
        rw [← Option.some.inj h]
      · left
        rw [← Option.some.inj h]
  | replaceChain newBlocks =>
    simp only [Op.apply] at h
    exact hrep newBlocks (Option.some.inj h).symm
  | handleBlockchainResponse parsed =>
    simp only [Op.apply, handleBlockchainResponse] at h
    cases hr : (sortByIndex parsed).getLast? with
    | none => simp [hr] at h
    | some tip =>
      cases hl : getLatestBlock s.blockchain with
      | none => simp [hr, hl] at h
      | some latest =>
        have hne : s.blockchain ≠ [] := by
          intro hnil
          simp [getLatestBlock, hnil] at hl
        simp only [hr, hl] at h
        split_ifs at h
        · right; left
          refine ⟨hne, tip, ?_⟩
          rw [← Option.some.inj h, broadcast_eq]
        · left
          rw [← Option.some.inj h, broadcast_eq]
        · exact hrep _ (Option.some.inj h).symm
        · left
          rw [← Option.some.inj h]

/-- The first block is the genesis block before a call, so it is after it. -/
theorem apply_first (H : String → String) (s s1 : Node) (op : Op)
    (h : op.apply H s = some s1) (hg : s.blockchain[0]? = some getGenesisBlock) :
    s1.blockchain[0]? = some getGenesisBlock := by
  rcases apply_chain H s s1 op h with hc | ⟨hne, b, hc⟩ | ⟨newBlocks, _, hv, _, hc⟩
  · rw [hc]; exact hg
  · rw [hc, List.getElem?_append_left (List.length_pos.2 hne)]
    exact hg
  · obtain ⟨h0, hgen, _⟩ := (isValidChain_eq_true H newBlocks).1 hv
    rw [hc, List.getElem?_eq_getElem h0, hgen]

/-- The first block is the genesis block all along a run. -/
theorem run_first (H : String → String) (ops : List Op) :
    ∀ s s1 : Node, run H s ops = some s1 → s.blockchain[0]? = some getGenesisBlock →
      s1.blockchain[0]? = some getGenesisBlock := by
  induction ops with
  | nil =>
    intro s s1 h hg
    simp only [run] at h
    rw [← Option.some.inj h]
    exact hg
  | cons op ops ih =>
    intro s s1 h hg
    simp only [run] at h
    cases ha : op.apply H s with
    | none => simp [ha] at h
    | some s2 =>
      simp only [ha] at h
      exact ih s2 s1 h (apply_first H s s2 op ha hg)

/-- C15: in every state reachable from startup by calls of `addBlock`, `replaceChain` and
`handleBlockchainResponse`, the held chain is non-empty and its first block is the genesis
block, so `getLatestBlock()` returns a block, the last one of the chain. -/
theorem reachable_chain_nonempty (H : String → String) (s : Node) (hs : Reachable H s) :
    s.blockchain ≠ []
      ∧ s.blockchain[0]? = some getGenesisBlock
      ∧ ∃ latest : Block, getLatestBlock s.blockchain = some latest
          ∧ s.blockchain.getLast? = some latest := by
  obtain ⟨ops, hrun⟩ := hs
  have hg : s.blockchain[0]? = some getGenesisBlock :=
    run_first H ops initialNode s hrun rfl
  have hne : s.blockchain ≠ [] := by
    intro hnil
    rw [hnil] at hg
    simp at hg
  exact ⟨hne, hg, s.blockchain.getLast hne, List.getLast?_eq_getLast _ hne,
    List.getLast?_eq_getLast _ hne⟩

/-- Witness for C15: the state after mining `sampleBlock1` and then receiving a valid
three-block chain. -/
theorem reachable_chain_nonempty_witness :
    Reachable toyHash
        { blockchain := [getGenesisBlock, sampleBlock1, sampleBlock2], sockets := [], outbox := [] }
      ∧ getLatestBlock [getGenesisBlock, sampleBlock1, sampleBlock2] = some sampleBlock2
      ∧ ([getGenesisBlock, sampleBlock1, sampleBlock2] : List Block)[0]? = some getGenesisBlock :=
  ⟨⟨[Op.addBlock sampleBlock1,
      Op.replaceChain [getGenesisBlock, sampleBlock1, sampleBlock2]], by decide⟩,
    by decide,
    (reachable_chain_nonempty toyHash
      { blockchain := [getGenesisBlock, sampleBlock1, sampleBlock2], sockets := [], outbox := [] }
      ⟨[Op.addBlock sampleBlock1,
        Op.replaceChain [getGenesisBlock, sampleBlock1, sampleBlock2]], by decide⟩).2.1⟩

/-- C16: a single call of `addBlock`, `replaceChain` or `handleBlockchainResponse` never
shortens the held chain, and the chain before is a prefix of the chain after unless the
call replaced the chain through `replaceChain` by a valid, strictly longer candidate. -/
theorem apply_never_shrinks (H : String → String) (s s1 : Node) (op : Op)
    (h : op.apply H s = some s1) :
    s.blockchain.length ≤ s1.blockchain.length
      ∧ (s.blockchain <+: s1.blockchain
          ∨ ∃ newBlocks : List Block, s1 = replaceChain H s newBlocks
              ∧ isValidChain H newBlocks = true
              ∧ s.blockchain.length < newBlocks.length
              ∧ s1.blockchain = newBlocks) := by
  rcases apply_chain H s s1 op h with hc | ⟨_, b, hc⟩ | ⟨newBlocks, hs, hv, hl, hc⟩
  · rw [hc]
    exact ⟨le_refl _, Or.inl (List.prefix_refl _)⟩
  · rw [hc]
    exact ⟨by simp, Or.inl (List.prefix_append _ _)⟩
  · refine ⟨?_, Or.inr ⟨newBlocks, hs, hv, hl, hc⟩⟩
    rw [hc]
    exact Nat.le_of_lt hl

/-- Witness for C16: a full replacement of `[genesis]` by a valid three-block chain. -/
theorem apply_never_shrinks_witness :
    (Op.replaceChain [getGenesisBlock, sampleBlock1, sampleBlock2]).apply toyHash sampleNode
        = some (replaceChain toyHash sampleNode [getGenesisBlock, sampleBlock1, sampleBlock2])
      ∧ sampleNode.blockchain.length
          ≤ (replaceChain toyHash sampleNode
              [getGenesisBlock, sampleBlock1, sampleBlock2]).blockchain.length :=
  ⟨rfl,
    (apply_never_shrinks toyHash sampleNode
      (replaceChain toyHash sampleNode [getGenesisBlock, sampleBlock1, sampleBlock2])
      (Op.replaceChain [getGenesisBlock, sampleBlock1, sampleBlock2]) rfl).1⟩

/-- The block `generateNextBlock` builds on a chain whose latest block is `latest`. -/
theorem generateNextBlock_eq (H : String → String) (blockchain : List Block)
    (latest : Block) (now : Nat) (payload : String)
    (hLatest : getLatestBlock blockchain = some latest) :
    generateNextBlock H blockchain now payload
      = some { index := latest.index + 1
               previousHash := latest.hash
               timestamp := (now : ℚ) / 1000
               data := payload
               hash := calculateHash H (latest.index + 1) latest.hash ((now : ℚ) / 1000)
                 payload } := by
  simp only [generateNextBlock, hLatest]

/-- A clock reading divided by 1000 is a whole number exactly for multiples of 1000. -/
theorem clock_div_isInt (now : Nat) :
    (∃ z : Int, (z : ℚ) = (now : ℚ) / 1000) ↔ 1000 ∣ now := by
  constructor
  · rintro ⟨z, hz⟩
    have h1 : (z : ℚ) * 1000 = (now : ℚ) := by
      rw [hz]
      field_simp
    have h2 : z * 1000 = (now : Int) := by exact_mod_cast h1
    have h3 : (1000 : Int) ∣ (now : Int) := ⟨z, by rw [← h2]; ring⟩
    exact_mod_cast h3
  · rintro ⟨k, hk⟩
    refine ⟨(k : Int), ?_⟩
    rw [hk]
    push_cast
    field_simp

/-- In a chain accepted by `isValidChain` the block at position `i` has index `i`. -/
theorem index_of_valid (H : String → String) (C : List Block)
    (hC : isValidChain H C = true) :
    ∀ (i : Nat) (hi : i < C.length), C[i].index = (i : Int) := by
  obtain ⟨h0, hg, hstep⟩ := (isValidChain_eq_true H C).1 hC
  intro i
  induction i with
  | zero =>
    intro _
    rw [hg]
    rfl
  | succ i ih =>
    intro hi
    have hprev := ih (by omega)
    obtain ⟨h1, _, _⟩ := (isValidNewBlock_eq_true H _ _).1 (hstep (i + 1) hi (by omega))
    simp only [Nat.add_sub_cancel] at h1
    rw [h1, hprev]
    push_cast
    rfl

/-- The latest block of a chain accepted by `isValidChain` has index `length - 1`. -/
theorem tip_index_of_valid (H : String → String) (C : List Block) (tip : Block)
    (hC : isValidChain H C = true) (hTip : getLatestBlock C = some tip) :
    tip.index = (C.length : Int) - 1 ∧ 0 < C.length := by
  obtain ⟨h0, _, _⟩ := (isValidChain_eq_true H C).1 hC
  have hlast : C.getLast? = some C[C.length - 1] := by
    rw [List.getLast?_eq_getElem?, List.getElem?_eq_getElem (by omega)]
  have heq : tip = C[C.length - 1] := by
    unfold getLatestBlock at hTip
    rw [hlast] at hTip
    exact (Option.some.inj hTip).symm
  refine ⟨?_, h0⟩
  rw [heq, index_of_valid H C hC (C.length - 1) (by omega)]
  omega

/-- C18 (fails on the code): at the clock reading 1500 ms the block produced on
`[genesis]` has timestamp 3/2, which is not an integer. -/
theorem generateNextBlock_timestamp_not_integer :
    generateNextBlock toyHash initialNode.blockchain 1500 "A"
        = some { index := 1
                 previousHash := getGenesisBlock.hash
                 timestamp := 3 / 2
                 data := "A"
                 hash := calculateHash toyHash 1 getGenesisBlock.hash (3 / 2) "A" }
      ∧ ¬ ∃ z : Int, (z : ℚ) = 3 / 2 := by
  constructor
  · have h : ((1500 : Nat) : ℚ) / 1000 = 3 / 2 := by norm_num
    rw [generateNextBlock_eq toyHash initialNode.blockchain getGenesisBlock 1500 "A"
      (by decide), h]
    rfl
  · rintro ⟨z, hz⟩
    have h1 : (z : ℚ) * 2 = 3 := by
      rw [hz]
      norm_num
    have h2 : z * 2 = 3 := by exact_mod_cast h1
    omega

/-- C18 as amended: the timestamp of the block produced by `generateNextBlock` is the
clock reading in milliseconds divided by 1000, that is the seconds since the epoch with the
milliseconds as a fraction; it is an integer exactly when the clock reading is a multiple
of 1000. -/
theorem generateNextBlock_timestamp (H : String → String) (blockchain : List Block)
    (latest : Block) (now : Nat) (payload : String)
    (hLatest : getLatestBlock blockchain = some latest) :
    ∃ b : Block, generateNextBlock H blockchain now payload = some b
      ∧ b.timestamp = (now : ℚ) / 1000
      ∧ ((∃ z : Int, (z : ℚ) = b.timestamp) ↔ 1000 ∣ now) :=
  ⟨_, generateNextBlock_eq H blockchain latest now payload hLatest, rfl, clock_div_isInt now⟩

/-- Witness for C18 as amended: a block mined on `[genesis]` at 1465154706500 ms. -/
theorem generateNextBlock_timestamp_witness :
    getLatestBlock sampleNode.blockchain = some getGenesisBlock
      ∧ ∃ b : Block, generateNextBlock toyHash sampleNode.blockchain 1465154706500 "A" = some b
        ∧ b.timestamp = ((1465154706500 : Nat) : ℚ) / 1000
        ∧ ((∃ z : Int, (z : ℚ) = b.timestamp) ↔ 1000 ∣ 1465154706500) :=
  ⟨by decide,
    generateNextBlock_timestamp toyHash sampleNode.blockchain getGenesisBlock 1465154706500 "A"
      (by decide)⟩

/-- C19: in a chain accepted by `isValidChain` the block at position `i` has index `i`, so
the tip index is the length minus 1; and for two accepted chains the tip-index comparison
of `handleBlockchainResponse` agrees with the length comparison of `replaceChain`. -/
theorem isValidChain_index (H : String → String) (C : List Block)
    (hC : isValidChain H C = true) :
    (∀ (i : Nat) (hi : i < C.length), C[i].index = (i : Int))
      ∧ (∃ tip : Block, getLatestBlock C = some tip ∧ tip.index = (C.length : Int) - 1)
      ∧ (∀ (D : List Block) (tipC tipD : Block), isValidChain H D = true →
          getLatestBlock C = some tipC → getLatestBlock D = some tipD →
          (tipD.index > tipC.index ↔ D.length > C.length)) := by
  refine ⟨index_of_valid H C hC, ?_, ?_⟩
  · obtain ⟨h0, _, _⟩ := (isValidChain_eq_true H C).1 hC
    have hne : C ≠ [] := List.ne_nil_of_length_pos h0
    have hTip : getLatestBlock C = some (C.getLast hne) := List.getLast?_eq_getLast _ hne
    exact ⟨_, hTip, (tip_index_of_valid H C _ hC hTip).1⟩
  · intro D tipC tipD hD hTipC hTipD
    obtain ⟨h1, h2⟩ := tip_index_of_valid H C tipC hC hTipC
    obtain ⟨h3, h4⟩ := tip_index_of_valid H D tipD hD hTipD
    rw [h1, h3]
    omega

/-- Witness for C19: the valid chain `[genesis, sampleBlock1, sampleBlock2]` has tip
index 2. -/
theorem isValidChain_index_witness :
    isValidChain toyHash [getGenesisBlock, sampleBlock1, sampleBlock2] = true
      ∧ ∃ tip : Block, getLatestBlock [getGenesisBlock, sampleBlock1, sampleBlock2] = some tip
          ∧ tip.index
              = (([getGenesisBlock, sampleBlock1, sampleBlock2] : List Block).length : Int) - 1 :=
  ⟨by decide,
    (isValidChain_index toyHash [getGenesisBlock, sampleBlock1, sampleBlock2] (by decide)).2.1⟩

/-- C20: the text handed to the hash function does not determine the four fields. For any
index, `previousHash` and stored hash, the block with timestamp 12 and data "3" and the
block with timestamp 1 and data "23" differ, yet give the same text; so for every hash
function their recomputed hashes are equal and `isValidNewBlock` accepts the one against a
predecessor exactly when it accepts the other. -/
theorem hashText_not_injective (H : String → String) (index : Int)
    (previousHash hash : String) (predecessor : Block) :
    ({ index := index, previousHash := previousHash, timestamp := 12, data := "3",
       hash := hash } : Block)
        ≠ { index := index, previousHash := previousHash, timestamp := 1, data := "23",
            hash := hash }
      ∧ hashText index previousHash 12 "3" = hashText index previousHash 1 "23"
      ∧ calculateHash H index previousHash 12 "3" = H (hashText index previousHash 12 "3")
      ∧ calculateHash H index previousHash 12 "3" = calculateHash H index previousHash 1 "23"
      ∧ (isValidNewBlock H
            { index := index, previousHash := previousHash, timestamp := 12, data := "3",
              hash := hash } predecessor = true
          ↔ isValidNewBlock H
            { index := index, previousHash := previousHash, timestamp := 1, data := "23",
              hash := hash } predecessor = true) := by
  have h12 : numberToString 12 = "12" := by decide
  have h1 : numberToString 1 = "1" := by decide
  have htext : hashText index previousHash 12 "3" = hashText index previousHash 1 "23" := by
    simp only [hashText, h12, h1, String.append_assoc]
    rfl
  have hcalc : calculateHash H index previousHash 12 "3"
      = calculateHash H index previousHash 1 "23" := by
    show H (hashText index previousHash 12 "3") = H (hashText index previousHash 1 "23")
    rw [htext]
  refine ⟨?_, htext, rfl, hcalc, ?_⟩
  · intro h
    have hd : ("3" : String) = "23" := congrArg Block.data h
    exact absurd hd (by decide)
  · rw [isValidNewBlock_eq_true, isValidNewBlock_eq_true]
    simp only [hcalc]

/-! Blocks as JavaScript values -/

namespace Raw

theorem roundHalfEven_one (n : Nat) : roundHalfEven n 1 = n := by
  unfold roundHalfEven
  simp only [Nat.mod_one, Nat.div_one, Nat.mul_zero, Nat.zero_lt_one, if_true]

theorem log2_eq_of_bounds (n k : Nat) (h1 : 2 ^ k ≤ n) (h2 : n < 2 ^ (k + 1)) :
    Nat.log2 n = k := by
  have hn : n ≠ 0 := by
    intro h
    rw [h] at h1
    have hp : 0 < 2 ^ k := Nat.two_pow_pos k
    omega
  have a : k ≤ Nat.log2 n := (Nat.le_log2 hn).2 h1
  have b : Nat.log2 n < k + 1 := (Nat.log2_lt hn).2 h2
  omega

theorem floorLog2_one (n : Nat) (hn : n ≠ 0) : floorLog2 n 1 = (Nat.log2 n : Int) := by
  have h1 : Nat.log2 1 = 0 := log2_eq_of_bounds 1 0 (by decide) (by decide)
  have h2 : 2 ^ Nat.log2 n ≤ n := Nat.log2_self_le hn
  simp [floorLog2, h1, h2]

/-- Integers of magnitude up to `2 ^ 53` are doubles: rounding leaves them as they are. -/
theorem roundDouble_int (z : Int) (hz : z.natAbs ≤ 2 ^ 53) :
    roundDouble (z : ℚ) = JsNumber.finite (z : ℚ) := by
  by_cases h0 : z = 0
  · subst h0
    simp [roundDouble]
  · have hq : (z : ℚ) ≠ 0 := by exact_mod_cast h0
    have hn : z.natAbs ≠ 0 := by simpa using h0
    have hlog : Nat.log2 z.natAbs ≤ 53 := by
      have : Nat.log2 z.natAbs < 54 := (Nat.log2_lt hn).2 (by omega)
      omega
    have hpow : 2 ^ Nat.log2 z.natAbs ≤ z.natAbs := Nat.log2_self_le hn
    have habs : ((z.natAbs : Nat) : ℚ) = |(z : ℚ)| := by
      rw [Nat.cast_natAbs]
      push_cast
      rfl
    have hsmall : ¬ (2 : ℚ) ^ (1024 : Nat) ≤ ((z.natAbs : Nat) : ℚ) := by
      rw [not_le]
      have h1 : ((z.natAbs : Nat) : ℚ) ≤ ((2 ^ 53 : Nat) : ℚ) := by exact_mod_cast hz
      have h2 : ((2 ^ 53 : Nat) : ℚ) < (2 : ℚ) ^ (1024 : Nat) := by norm_num
      exact lt_of_le_of_lt h1 h2
    have hsign : (if 0 < (z : ℚ) then ((z.natAbs : Nat) : ℚ) else -((z.natAbs : Nat) : ℚ))
        = (z : ℚ) := by
      rw [habs]
      split_ifs with hp
      · exact abs_of_pos hp
      · rw [abs_of_nonpos (not_lt.1 hp)]
        ring
    have hmag : ((if (0 : Int) ≤ 52 - max (floorLog2 z.natAbs 1) (-1022) then
          roundHalfEven (z.natAbs * 2 ^ (52 - max (floorLog2 z.natAbs 1) (-1022)).toNat) 1
        else roundHalfEven z.natAbs (1 * 2 ^ (-(52 - max (floorLog2 z.natAbs 1) (-1022))).toNat)
          : Nat) : ℚ) * (2 : ℚ) ^ (-(52 - max (floorLog2 z.natAbs 1) (-1022)))
        = ((z.natAbs : Nat) : ℚ) := by
      rw [floorLog2_one _ hn]
      have hmax : max ((Nat.log2 z.natAbs : Nat) : Int) (-1022) = (Nat.log2 z.natAbs : Int) := by
        omega
      rw [hmax]
      rcases Nat.lt_or_ge (Nat.log2 z.natAbs) 53 with hlt | hge
      · have hs : (0 : Int) ≤ 52 - (Nat.log2 z.natAbs : Int) := by omega
        rw [if_pos hs, roundHalfEven_one]
        have hk : (52 - (Nat.log2 z.natAbs : Int)) = ((52 - Nat.log2 z.natAbs : Nat) : Int) := by
          omega
        rw [hk, Int.toNat_ofNat]
        push_cast
        rw [zpow_neg, zpow_natCast, mul_assoc, mul_inv_cancel₀ (by positivity), mul_one]
      · have he : Nat.log2 z.natAbs = 53 := by omega
        have hzz : z.natAbs = 2 ^ 53 := by
          rw [he] at hpow
          omega
        rw [he, hzz]
        norm_num [roundHalfEven]
    unfold roundDouble
    rw [if_neg hq]
    simp only [Rat.num_intCast, Rat.den_intCast]
    rw [hmag, if_neg hsmall, hsign]

/-- The integer `2 ^ 53 + 1` is not a double: it rounds to `2 ^ 53`. -/
theorem roundDouble_two_pow_53_succ :
    roundDouble (9007199254740993 : ℚ) = JsNumber.finite 9007199254740992 := by
  have hq : (9007199254740993 : ℚ) ≠ 0 := by norm_num
  have hnum : (9007199254740993 : ℚ).num.natAbs = 9007199254740993 := rfl
  have hden : (9007199254740993 : ℚ).den = 1 := rfl
  have hlog : floorLog2 9007199254740993 1 = 53 := by
    rw [floorLog2_one _ (by decide),
      log2_eq_of_bounds 9007199254740993 53 (by norm_num) (by norm_num)]
    rfl
  unfold roundDouble
  rw [if_neg hq]
  simp only [hnum, hden, hlog]
  norm_num [roundHalfEven]

/-- Adding 1 to an integer of magnitude below `2 ^ 53` is exact. -/
theorem jsAdd_one_safe (js : Builtins) (z : Int) (hz : z.natAbs < 2 ^ 53) :
    jsAdd js (JsValue.number (JsNumber.finite (z : ℚ))) (JsValue.number (JsNumber.finite 1))
      = JsValue.number (JsNumber.finite ((z : ℚ) + 1)) := by
  have h : roundDouble (((z + 1 : Int)) : ℚ) = JsNumber.finite ((z + 1 : Int) : ℚ) :=
    roundDouble_int (z + 1) (by omega)
  have hc : ((z + 1 : Int) : ℚ) = (z : ℚ) + 1 := by push_cast; rfl
  rw [hc] at h
  simp only [jsAdd, asNumber, numAdd]
  rw [h]

/-- At `2 ^ 53` adding 1 changes nothing. -/
theorem jsAdd_one_two_pow_53 (js : Builtins) :
    jsAdd js (JsValue.number (JsNumber.finite 9007199254740992)) (JsValue.number (JsNumber.finite 1))
      = JsValue.number (JsNumber.finite 9007199254740992) := by
  simp only [jsAdd, asNumber, numAdd]
  rw [show (9007199254740992 : ℚ) + 1 = 9007199254740993 by norm_num,
    roundDouble_two_pow_53_succ]

/-- Strict equality holds only between equal values. -/
theorem eq_of_strictEq (a b : JsValue) (h : strictEq a b = true) : a = b := by
  cases a <;> cases b <;> simp [strictEq] at h ⊢
  · exact h
  · rename_i x y
    cases x <;> simp [strictEq] at h ⊢ <;> exact h
  · exact h

/-- Strict equality with a finite number on the left. -/
theorem strictEq_finite (q : ℚ) (v : JsValue) :
    strictEq (JsValue.number (JsNumber.finite q)) v = true
      ↔ v = JsValue.number (JsNumber.finite q) := by
  constructor
  · intro h
    exact (eq_of_strictEq _ _ h).symm
  · intro h
    subst h
    simp [strictEq]

/-- Strict equality with a string on the left. -/
theorem strictEq_string (s : String) (v : JsValue) :
    strictEq (JsValue.string s) v = true ↔ v = JsValue.string s := by
  constructor
  · intro h
    exact (eq_of_strictEq _ _ h).symm
  · intro h
    subst h
    simp [strictEq]



/-- Strict equality with a primitive value other than `NaN` on the left. -/
theorem strictEq_selfEqual (a v : JsValue) (ha : selfEqual a = true) :
    strictEq a v = true ↔ v = a := by
  constructor
  · intro h
    exact (eq_of_strictEq _ _ h).symm
  · intro h
    subst h
    cases v with
    | undefined => rfl
    | null => rfl
    | bool b => simp [strictEq]
    | number x =>
      cases x with
      | finite q => simp [strictEq]
      | nan => simp [selfEqual] at ha
      | posInf => simp [strictEq]
      | negInf => simp [strictEq]
    | string t => simp [strictEq]
    | compound t => simp [selfEqual] at ha

/-- The three checks pass when the predecessor's index is an integer of magnitude below
`2 ^ 53`, its hash is a primitive value other than `NaN`, and the candidate has the next
index, that hash as `previousHash`, and the recomputed hash as `hash`. -/
theorem isValidNewBlock_complete_plain (js : Builtins) (candidate predecessor : RawBlock)
    (pi : Int)
    (hIdx : predecessor.index = JsValue.number (JsNumber.finite (pi : ℚ)))
    (hSafe : pi.natAbs < 2 ^ 53)
    (hHash : selfEqual predecessor.hash = true)
    (h1 : candidate.index = JsValue.number (JsNumber.finite ((pi : ℚ) + 1)))
    (h2 : candidate.previousHash = predecessor.hash)
    (h3 : JsValue.string (calculateHash js candidate.index candidate.previousHash
      candidate.timestamp candidate.data) = candidate.hash) :
    isValidNewBlock js candidate predecessor = true := by
  have e1 : strictEq (jsAdd js predecessor.index (JsValue.number (JsNumber.finite 1)))
      candidate.index = true := by
    rw [hIdx, jsAdd_one_safe js pi hSafe, h1, strictEq_finite]
  have e2 : strictEq predecessor.hash candidate.previousHash = true := by
    rw [strictEq_selfEqual _ _ hHash]
    exact h2
  have e3 : strictEq (JsValue.string (calculateHashForBlock js candidate))
      candidate.hash = true := by
    rw [strictEq_string]
    exact h3.symm
  simp [isValidNewBlock, e1, e2, e3]

/-- What an accepted candidate looks like when the predecessor's index is an integer of
magnitude below `2 ^ 53`. -/
theorem isValidNewBlock_sound (js : Builtins) (candidate predecessor : RawBlock)
    (pi : Int) (hIdx : predecessor.index = JsValue.number (JsNumber.finite (pi : ℚ)))
    (hSafe : pi.natAbs < 2 ^ 53)
    (h : isValidNewBlock js candidate predecessor = true) :
    candidate.index = JsValue.number (JsNumber.finite ((pi : ℚ) + 1))
      ∧ candidate.previousHash = predecessor.hash
      ∧ JsValue.string (calculateHash js candidate.index candidate.previousHash
          candidate.timestamp candidate.data) = candidate.hash := by
  unfold isValidNewBlock at h
  rw [hIdx, jsAdd_one_safe js pi hSafe] at h
  split_ifs at h with a b c
  simp only [Bool.not_eq_true', Bool.not_eq_false] at a b c
  exact ⟨(eq_of_strictEq _ _ a).symm, (eq_of_strictEq _ _ b).symm, eq_of_strictEq _ _ c⟩

/-- The three checks pass when the predecessor's index is an integer of magnitude below
`2 ^ 53`, its hash is a string, and the candidate has the next index, that string as
`previousHash`, and the recomputed hash as `hash`. -/
theorem isValidNewBlock_complete (js : Builtins) (candidate predecessor : RawBlock)
    (pi : Int) (ph : String)
    (hIdx : predecessor.index = JsValue.number (JsNumber.finite (pi : ℚ)))
    (hSafe : pi.natAbs < 2 ^ 53)
    (hHash : predecessor.hash = JsValue.string ph)
    (h1 : candidate.index = JsValue.number (JsNumber.finite ((pi : ℚ) + 1)))
    (h2 : candidate.previousHash = JsValue.string ph)
    (h3 : JsValue.string (calculateHash js candidate.index candidate.previousHash
      candidate.timestamp candidate.data) = candidate.hash) :
    isValidNewBlock js candidate predecessor = true := by
  have e1 : strictEq (jsAdd js predecessor.index (JsValue.number (JsNumber.finite 1)))
      candidate.index = true := by
    rw [hIdx, jsAdd_one_safe js pi hSafe, h1, strictEq_finite]
  have e2 : strictEq predecessor.hash candidate.previousHash = true := by
    rw [hHash, h2, strictEq_string]
  have e3 : strictEq (JsValue.string (calculateHashForBlock js candidate))
      candidate.hash = true := by
    rw [strictEq_string]
    exact h3.symm
  simp [isValidNewBlock, e1, e2, e3]

/-- The block `bigTwin` passes the three checks against `bigTip`. -/
theorem bigTwin_accepted : isValidNewBlock toyBuiltins bigTwin bigTip = true := by
  have e1 : strictEq (jsAdd toyBuiltins bigTip.index (JsValue.number (JsNumber.finite 1)))
      bigTwin.index = true := by
    show strictEq (jsAdd toyBuiltins (JsValue.number (JsNumber.finite 9007199254740992))
      (JsValue.number (JsNumber.finite 1)))
      (JsValue.number (JsNumber.finite 9007199254740992)) = true
    rw [jsAdd_one_two_pow_53 toyBuiltins, strictEq_finite]
  have e2 : strictEq bigTip.hash bigTwin.previousHash = true := by
    show strictEq (JsValue.string "big") (JsValue.string "big") = true
    rw [strictEq_string]
  have e3 : strictEq (JsValue.string (calculateHashForBlock toyBuiltins bigTwin))
      bigTwin.hash = true := by
    rw [strictEq_string]
    rfl
  simp [isValidNewBlock, e1, e2, e3]

/-- C5 (fails on the code): `bigTwin` and `bigTip` both have index `2 ^ 53`, so the
candidate's index is not the predecessor's plus one, yet `isValidNewBlock` returns true:
in doubles `2 ^ 53 + 1` is `2 ^ 53`. -/
theorem isValidNewBlock_accepts_equal_index :
    bigTip.index = JsValue.number (JsNumber.finite 9007199254740992)
      ∧ bigTwin.index = JsValue.number (JsNumber.finite 9007199254740992)
      ∧ bigTwin.index ≠ JsValue.number (JsNumber.finite 9007199254740993)
      ∧ isValidNewBlock toyBuiltins bigTwin bigTip = true := by
  exact ⟨rfl, rfl, by decide, bigTwin_accepted⟩

/-- C5 as amended: for every candidate block and every predecessor block whose index is
an integer of magnitude below `2 ^ 53` and whose hash is a primitive value other than `NaN`
(a string, as the constructor stores it, or a number, boolean or null; not an array or
object), `isValidNewBlock` returns true exactly when the candidate's index is the
predecessor's plus one, its `previousHash` is the predecessor's hash, and the hash
recomputed from the candidate's index, previousHash, timestamp and data equals its stored
hash. -/
theorem isValidNewBlock_iff_safe (js : Builtins) (candidate predecessor : RawBlock)
    (pi : Int)
    (hIdx : predecessor.index = JsValue.number (JsNumber.finite (pi : ℚ)))
    (hSafe : pi.natAbs < 2 ^ 53)
    (hHash : selfEqual predecessor.hash = true) :
    isValidNewBlock js candidate predecessor = true ↔
      candidate.index = JsValue.number (JsNumber.finite ((pi : ℚ) + 1))
        ∧ candidate.previousHash = predecessor.hash
        ∧ JsValue.string (calculateHash js candidate.index candidate.previousHash
            candidate.timestamp candidate.data) = candidate.hash := by
  constructor
  · exact isValidNewBlock_sound js candidate predecessor pi hIdx hSafe
  · rintro ⟨h1, h2, h3⟩
    exact isValidNewBlock_complete_plain js candidate predecessor pi hIdx hSafe hHash h1 h2 h3

/-- Witness for C5 as amended: `sampleRaw1` against the genesis block. -/
theorem isValidNewBlock_iff_safe_witness :
    getGenesisBlock.index = JsValue.number (JsNumber.finite ((0 : Int) : ℚ))
      ∧ (0 : Int).natAbs < 2 ^ 53
      ∧ selfEqual getGenesisBlock.hash = true
      ∧ isValidNewBlock toyBuiltins sampleRaw1 getGenesisBlock = true :=
  ⟨by decide, by decide, rfl,
    (isValidNewBlock_iff_safe toyBuiltins sampleRaw1 getGenesisBlock 0
      (by decide) (by decide) rfl).2
      ⟨by
          show JsValue.number (JsNumber.finite 1)
            = JsValue.number (JsNumber.finite (((0 : Int) : ℚ) + 1))
          norm_num,
        rfl, rfl⟩⟩

/-- C7 (fails on the code): the held chain `[genesis, bigTip]` has a latest block of index
`2 ^ 53`; the candidate `bigTwin` has index `2 ^ 53` too, which is not the latest index plus
one, yet `addBlock` appends it. -/
theorem addBlock_appends_wrong_index :
    getLatestBlock [getGenesisBlock, bigTip] = some bigTip
      ∧ bigTip.index = JsValue.number (JsNumber.finite 9007199254740992)
      ∧ bigTwin.index ≠ JsValue.number (JsNumber.finite 9007199254740993)
      ∧ addBlock toyBuiltins [getGenesisBlock, bigTip] bigTwin
          = some [getGenesisBlock, bigTip, bigTwin] := by
  refine ⟨rfl, rfl, by decide, ?_⟩
  have hl : getLatestBlock [getGenesisBlock, bigTip] = some bigTip := rfl
  simp only [addBlock, hl, bigTwin_accepted]
  rfl

/-- C7 as amended: for every held chain whose latest block has an integer index of
magnitude below `2 ^ 53`, and every candidate that has a wrong index, a wrong
`previousHash`, or a stored hash different from the recomputed one, relative to that latest
block, `addBlock(candidate)` leaves the held chain exactly as it was. -/
theorem addBlock_invalid_safe (js : Builtins) (blockchain : List RawBlock)
    (candidate latest : RawBlock) (pi : Int)
    (hLatest : getLatestBlock blockchain = some latest)
    (hIdx : latest.index = JsValue.number (JsNumber.finite (pi : ℚ)))
    (hSafe : pi.natAbs < 2 ^ 53)
    (hBad : candidate.index ≠ JsValue.number (JsNumber.finite ((pi : ℚ) + 1))
      ∨ candidate.previousHash ≠ latest.hash
      ∨ JsValue.string (calculateHash js candidate.index candidate.previousHash
          candidate.timestamp candidate.data) ≠ candidate.hash) :
    addBlock js blockchain candidate = some blockchain := by
  have hnot : isValidNewBlock js candidate latest = false := by
    rw [Bool.eq_false_iff]
    intro h
    obtain ⟨h1, h2, h3⟩ := isValidNewBlock_sound js candidate latest pi hIdx hSafe h
    rcases hBad with hb | hb | hb
    · exact hb h1
    · exact hb h2
    · exact hb h3
  simp only [addBlock, hLatest, hnot]
  rfl

/-- Witness for C7 as amended: `bigTwin` (index `2 ^ 53`) is not appended to `[genesis]`,
whose latest index is 0. -/
theorem addBlock_invalid_safe_witness :
    getLatestBlock [getGenesisBlock] = some getGenesisBlock
      ∧ getGenesisBlock.index = JsValue.number (JsNumber.finite ((0 : Int) : ℚ))
      ∧ (0 : Int).natAbs < 2 ^ 53
      ∧ bigTwin.previousHash ≠ getGenesisBlock.hash
      ∧ addBlock toyBuiltins [getGenesisBlock] bigTwin = some [getGenesisBlock] :=
  ⟨rfl, by decide, by decide, by decide,
    addBlock_invalid_safe toyBuiltins [getGenesisBlock] bigTwin getGenesisBlock 0 rfl (by decide)
      (by decide) (Or.inr (Or.inl (by decide)))⟩

/-- The block `generateNextBlock` builds when the latest block has an integer index of
magnitude below `2 ^ 53` and a string hash. -/
theorem generateNextBlock_eq_safe (js : Builtins) (blockchain : List RawBlock)
    (latest : RawBlock) (pi : Int) (ph : String) (now : Nat) (payload : JsValue)
    (hLatest : getLatestBlock blockchain = some latest)
    (hIdx : latest.index = JsValue.number (JsNumber.finite (pi : ℚ)))
    (hSafe : pi.natAbs < 2 ^ 53)
    (hHash : latest.hash = JsValue.string ph) :
    generateNextBlock js blockchain now payload
      = some { index := JsValue.number (JsNumber.finite ((pi : ℚ) + 1))
               previousHash := JsValue.string ph
               timestamp := JsValue.number (roundDouble ((now : ℚ) / 1000))
               data := payload
               hash := JsValue.string (calculateHash js
                 (JsValue.number (JsNumber.finite ((pi : ℚ) + 1))) (JsValue.string ph)
                 (JsValue.number (roundDouble ((now : ℚ) / 1000))) payload)
               standardLayout := true } := by
  simp only [generateNextBlock, hLatest, hIdx, hHash, jsAdd_one_safe js pi hSafe, newBlock,
    toStringMethod, toStr]

/-- C8 (fails on the code): on the held chain `[genesis, numericHashTip]`, whose latest
block has the number 5 as `hash`, `generateNextBlock` returns a block whose `previousHash`
is the string "5"; `isValidNewBlock` rejects it against the latest block and `addBlock`
leaves the chain at length 2. -/
theorem generateNextBlock_rejected_after_numeric_hash :
    getLatestBlock [getGenesisBlock, numericHashTip] = some numericHashTip
      ∧ numericHashTip.hash = JsValue.number (JsNumber.finite 5)
      ∧ ∃ b : RawBlock,
          generateNextBlock toyBuiltins [getGenesisBlock, numericHashTip] 1500 (JsValue.string "A")
            = some b
          ∧ b.previousHash = JsValue.string "5"
          ∧ b.previousHash ≠ numericHashTip.hash
          ∧ isValidNewBlock toyBuiltins b numericHashTip = false
          ∧ addBlock toyBuiltins [getGenesisBlock, numericHashTip] b
              = some [getGenesisBlock, numericHashTip] := by
  have hl : getLatestBlock [getGenesisBlock, numericHashTip] = some numericHashTip := rfl
  have hidx : numericHashTip.index = JsValue.number (JsNumber.finite ((1 : Int) : ℚ)) := by
    decide
  have hadd := jsAdd_one_safe toyBuiltins 1 (by decide)
  have h5 : toStringMethod toyBuiltins (JsValue.number (JsNumber.finite 5)) = some "5" := by
    decide
  have hn : toyBuiltins.numberToString (JsNumber.finite 5) = "5" := by decide
  have hgen : ∃ b : RawBlock,
      generateNextBlock toyBuiltins [getGenesisBlock, numericHashTip] 1500 (JsValue.string "A")
        = some b ∧ b.previousHash = JsValue.string "5" := by
    have hh : numericHashTip.hash = JsValue.number (JsNumber.finite 5) := rfl
    refine ⟨{ index := JsValue.number (JsNumber.finite (((1 : Int) : ℚ) + 1))
              previousHash := JsValue.string "5"
              timestamp := JsValue.number (roundDouble (((1500 : Nat) : ℚ) / 1000))
              data := JsValue.string "A"
              hash := JsValue.string (calculateHash toyBuiltins
                (JsValue.number (JsNumber.finite (((1 : Int) : ℚ) + 1)))
                (JsValue.number (JsNumber.finite 5))
                (JsValue.number (roundDouble (((1500 : Nat) : ℚ) / 1000)))
                (JsValue.string "A"))
              standardLayout := true }, ?_, rfl⟩
    simp only [generateNextBlock, hl, hidx, hh, hadd, newBlock, h5, toStringMethod, toStr, hn]
  have hrej : ∀ b : RawBlock, b.previousHash = JsValue.string "5" →
      isValidNewBlock toyBuiltins b numericHashTip = false := by
    intro b hb
    have e2 : strictEq numericHashTip.hash b.previousHash = false := by
      rw [hb]
      rfl
    unfold isValidNewBlock
    split_ifs <;> simp_all
  obtain ⟨b, hb, hp⟩ := hgen
  have hr := hrej b hp
  refine ⟨hl, rfl, b, hb, hp, ?_, hr, ?_⟩
  · rw [hp]
    decide
  · simp [addBlock, hl, hr]

/-- C8 as amended: for every held chain whose latest block has an integer index of
magnitude below `2 ^ 53` and a string hash, every payload and every clock reading, the
block returned by `generateNextBlock(payload)` has index `latest.index + 1`,
`previousHash = latest.hash`, the payload as data, and a hash equal to `calculateHash` of
its own four fields; `isValidNewBlock` accepts it against the latest block and `addBlock`
of it lengthens the chain by exactly 1. From `[genesis]` the block has index 1 and
`previousHash` the genesis hash, and the chain then has length 2. -/
theorem generateNextBlock_valid_safe (js : Builtins) :
    (∀ (blockchain : List RawBlock) (latest : RawBlock) (pi : Int) (ph : String) (now : Nat)
        (payload : JsValue),
      getLatestBlock blockchain = some latest →
      latest.index = JsValue.number (JsNumber.finite (pi : ℚ)) →
      pi.natAbs < 2 ^ 53 →
      latest.hash = JsValue.string ph →
      ∃ b : RawBlock, generateNextBlock js blockchain now payload = some b
        ∧ b.index = JsValue.number (JsNumber.finite ((pi : ℚ) + 1))
        ∧ b.previousHash = latest.hash
        ∧ b.data = payload
        ∧ b.hash = JsValue.string
            (calculateHash js b.index b.previousHash b.timestamp b.data)
        ∧ isValidNewBlock js b latest = true
        ∧ addBlock js blockchain b = some (blockchain ++ [b])
        ∧ (blockchain ++ [b]).length = blockchain.length + 1)
      ∧ (∀ (now : Nat) (payload : JsValue),
          ∃ b : RawBlock, generateNextBlock js [getGenesisBlock] now payload = some b
            ∧ b.index = JsValue.number (JsNumber.finite 1)
            ∧ b.previousHash = getGenesisBlock.hash
            ∧ addBlock js [getGenesisBlock] b = some [getGenesisBlock, b]
            ∧ [getGenesisBlock, b].length = 2) := by
  have main : ∀ (blockchain : List RawBlock) (latest : RawBlock) (pi : Int) (ph : String)
      (now : Nat) (payload : JsValue),
      getLatestBlock blockchain = some latest →
      latest.index = JsValue.number (JsNumber.finite (pi : ℚ)) →
      pi.natAbs < 2 ^ 53 →
      latest.hash = JsValue.string ph →
      ∃ b : RawBlock, generateNextBlock js blockchain now payload = some b
        ∧ b.index = JsValue.number (JsNumber.finite ((pi : ℚ) + 1))
        ∧ b.previousHash = latest.hash
        ∧ b.data = payload
        ∧ b.hash = JsValue.string
            (calculateHash js b.index b.previousHash b.timestamp b.data)
        ∧ isValidNewBlock js b latest = true
        ∧ addBlock js blockchain b = some (blockchain ++ [b])
        ∧ (blockchain ++ [b]).length = blockchain.length + 1 := by
    intro blockchain latest pi ph now payload hLatest hIdx hSafe hHash
    have hgen := generateNextBlock_eq_safe js blockchain latest pi ph now payload hLatest
      hIdx hSafe hHash
    refine ⟨_, hgen, rfl, hHash.symm, rfl, rfl, ?_⟩
    have hv := isValidNewBlock_complete js
      { index := JsValue.number (JsNumber.finite ((pi : ℚ) + 1))
        previousHash := JsValue.string ph
        timestamp := JsValue.number (roundDouble ((now : ℚ) / 1000))
        data := payload
        hash := JsValue.string (calculateHash js
          (JsValue.number (JsNumber.finite ((pi : ℚ) + 1))) (JsValue.string ph)
          (JsValue.number (roundDouble ((now : ℚ) / 1000))) payload)
        standardLayout := true }
      latest pi ph hIdx hSafe hHash rfl rfl rfl
    refine ⟨hv, ?_, by simp⟩
    simp only [addBlock, hLatest, hv]
    rfl
  refine ⟨main, fun now payload => ?_⟩
  obtain ⟨b, h1, h2, h3, _, _, _, h7, _⟩ :=
    main [getGenesisBlock] getGenesisBlock 0
      "816534932c2b7154836da6afc367695e6337db8a921823784c14378abed4f7d7" now payload rfl
      (by decide) (by decide) rfl
  refine ⟨b, h1, ?_, h3, h7, rfl⟩
  rw [h2]
  norm_num

/-- Witness for C8 as amended: mining a block with data "A" on `[genesis]`. -/
theorem generateNextBlock_valid_safe_witness :
    getLatestBlock [getGenesisBlock] = some getGenesisBlock
      ∧ getGenesisBlock.index = JsValue.number (JsNumber.finite ((0 : Int) : ℚ))
      ∧ (0 : Int).natAbs < 2 ^ 53
      ∧ getGenesisBlock.hash
          = JsValue.string "816534932c2b7154836da6afc367695e6337db8a921823784c14378abed4f7d7"
      ∧ ∃ b : RawBlock,
          generateNextBlock toyBuiltins [getGenesisBlock] 1465154706500 (JsValue.string "A") = some b
          ∧ b.index = JsValue.number (JsNumber.finite (((0 : Int) : ℚ) + 1))
          ∧ b.previousHash = getGenesisBlock.hash
          ∧ b.data = JsValue.string "A"
          ∧ b.hash = JsValue.string
              (calculateHash toyBuiltins b.index b.previousHash b.timestamp b.data)
          ∧ isValidNewBlock toyBuiltins b getGenesisBlock = true
          ∧ addBlock toyBuiltins [getGenesisBlock] b = some ([getGenesisBlock] ++ [b])
          ∧ ([getGenesisBlock] ++ [b]).length = [getGenesisBlock].length + 1 :=
  ⟨rfl, by decide, by decide, rfl,
    (generateNextBlock_valid_safe toyBuiltins).1 [getGenesisBlock] getGenesisBlock 0
      "816534932c2b7154836da6afc367695e6337db8a921823784c14378abed4f7d7" 1465154706500
      (JsValue.string "A") rfl (by decide) (by decide) rfl⟩

/-- The loop of `isValidChain` checks every block from position `i` on against its
predecessor, when `tempBlocks` holds the first `i` blocks. -/
theorem rawLoop_take (js : Builtins) (bs : List RawBlock) :
    ∀ (k i : Nat), 1 ≤ i → i + k = bs.length →
      (isValidChainLoop js bs k i (bs.take i) = true ↔
        ∀ (j : Nat) (hj : j < bs.length), i ≤ j →
          isValidNewBlock js bs[j] bs[j - 1] = true) := by
  intro k
  induction k with
  | zero =>
    intro i _ hik
    simp only [isValidChainLoop, true_iff]
    intro j hj hij
    omega
  | succ k ih =>
    intro i hi hik
    have hlt : i < bs.length := by omega
    have hlt2 : i - 1 < bs.length := by omega
    have h1 : bs[i]? = some bs[i] := List.getElem?_eq_getElem hlt
    have h2 : (bs.take i)[i - 1]? = some bs[i - 1] := by
      rw [List.getElem?_take_of_lt (by omega)]
      exact List.getElem?_eq_getElem hlt2
    have h3 : bs.take i ++ [bs[i]] = bs.take (i + 1) := by
      rw [List.take_succ, h1]; rfl
    simp only [isValidChainLoop, h1, h2, h3]
    by_cases hv : isValidNewBlock js bs[i] bs[i - 1] = true
    · rw [if_pos hv, ih (i + 1) (by omega) (by omega)]
      constructor
      · intro h j hj hij
        rcases Nat.eq_or_lt_of_le hij with heq | hlt3
        · subst heq; exact hv
        · exact h j hj hlt3
      · intro h j hj hij
        exact h j hj (by omega)
    · rw [if_neg hv]
      constructor
      · intro h; exact absurd h (by simp)
      · intro h; exact absurd (h i hlt (le_refl i)) hv

/-- What `isValidChain` checks: the first block against the genesis text and every
later block against its predecessor. -/
theorem rawChain_eq_true (js : Builtins) (C : List RawBlock) :
    isValidChain js C = true ↔
      ∃ _ : 0 < C.length, C[0] = getGenesisBlock ∧
        ∀ (i : Nat) (hi : i < C.length), 0 < i →
          isValidNewBlock js C[i] C[i - 1] = true := by
  cases C with
  | nil => simp [isValidChain]
  | cons first rest =>
    have hloop := rawLoop_take js (first :: rest) rest.length 1 (le_refl 1)
      (by simp [Nat.add_comm])
    simp only [List.take_succ_cons, List.take_zero] at hloop
    by_cases hg : first = getGenesisBlock
    · have hv : isValidChain js (first :: rest)
          = isValidChainLoop js (first :: rest) rest.length 1 [first] := by
        simp [isValidChain, jsonTextDiffersFromGenesis, hg]
      rw [hv, hloop]
      constructor
      · intro h
        exact ⟨Nat.succ_pos _, hg, fun i hi hpos => h i hi hpos⟩
      · rintro ⟨_, _, h⟩ j hj hij
        exact h j hj hij
    · simp [isValidChain, jsonTextDiffersFromGenesis, hg]

/-- The condition on a block after the first that the chain rule asks for. -/
theorem linked_of_accepted (js : Builtins) (C : List RawBlock)
    (hLen : C.length ≤ 2 ^ 53) (h0 : 0 < C.length) (hg : C[0] = getGenesisBlock)
    (hstep : ∀ (i : Nat) (hi : i < C.length), 0 < i →
      isValidNewBlock js C[i] C[i - 1] = true) :
    ∀ (i : Nat) (hi : i < C.length),
      C[i].index = JsValue.number (JsNumber.finite (i : ℚ)) := by
  intro i
  induction i with
  | zero =>
    intro _
    rw [hg]
    simp [getGenesisBlock]
  | succ i ih =>
    intro hi
    have hprev := ih (by omega)
    have hprev2 : C[i + 1 - 1].index = JsValue.number (JsNumber.finite (((i : Int)) : ℚ)) := by
      simp only [Nat.add_sub_cancel]
      rw [hprev]
      push_cast
      rfl
    obtain ⟨h1, _, _⟩ := isValidNewBlock_sound js C[i + 1] C[i + 1 - 1] (i : Int) hprev2
      (by simp only [Int.natAbs_ofNat]; omega) (hstep (i + 1) hi (by omega))
    rw [h1]
    push_cast
    rfl

/-- From the chain rule stated on the fields: every block has its position as index and a
string as hash. -/
theorem typed_of_linked (js : Builtins) (C : List RawBlock)
    (h0 : 0 < C.length) (hg : C[0] = getGenesisBlock)
    (hlink : ∀ (i : Nat) (hi : i < C.length), 0 < i →
      (∃ n : Int, C[i - 1].index = JsValue.number (JsNumber.finite (n : ℚ))
          ∧ C[i].index = JsValue.number (JsNumber.finite ((n : ℚ) + 1)))
        ∧ C[i].previousHash = C[i - 1].hash
        ∧ JsValue.string (calculateHash js C[i].index C[i].previousHash C[i].timestamp
            C[i].data) = C[i].hash) :
    ∀ (i : Nat) (hi : i < C.length),
      C[i].index = JsValue.number (JsNumber.finite ((i : Int) : ℚ))
        ∧ ∃ h : String, C[i].hash = JsValue.string h := by
  intro i
  induction i with
  | zero =>
    intro _
    rw [hg]
    exact ⟨by simp [getGenesisBlock], _, rfl⟩
  | succ i ih =>
    intro hi
    obtain ⟨hprev, _⟩ := ih (by omega)
    obtain ⟨⟨n, hn1, hn2⟩, _, h3⟩ := hlink (i + 1) hi (by omega)
    simp only [Nat.add_sub_cancel] at hn1
    have hni : (n : ℚ) = ((i : Int) : ℚ) := by
      rw [hprev] at hn1
      injection hn1 with hx
      injection hx with hy
      exact hy.symm
    refine ⟨?_, _, h3.symm⟩
    rw [hn2, hni]
    push_cast
    rfl

/-- C4 (fails on the code): an object that holds the genesis block's five values under
keys in another order is equal to the genesis block field for field, yet
`isValidChain` rejects the one-element sequence made of it. -/
theorem isValidChain_rejects_reordered_genesis :
    reorderedGenesis.index = getGenesisBlock.index
      ∧ reorderedGenesis.previousHash = getGenesisBlock.previousHash
      ∧ reorderedGenesis.timestamp = getGenesisBlock.timestamp
      ∧ reorderedGenesis.data = getGenesisBlock.data
      ∧ reorderedGenesis.hash = getGenesisBlock.hash
      ∧ isValidChain toyBuiltins [reorderedGenesis] = false := by
  decide

/-- C4 as amended: for every block sequence `C` (of at most `2 ^ 53` blocks, as every
JavaScript array is), `isValidChain(C)` is true exactly when `C` is non-empty, `C[0]`
serialises to the same JSON text as the genesis block (the same five keys in the same
order, no other key, the same values), and every later block has the index of its
predecessor plus one, the predecessor's hash as `previousHash`, and a stored hash equal to
the hash recomputed from its fields; and `isValidChain([genesis])` is true. -/
theorem isValidChain_iff_text (js : Builtins) (C : List RawBlock)
    (hLen : C.length ≤ 2 ^ 53) :
    (isValidChain js C = true ↔
      C ≠ [] ∧ C[0]? = some getGenesisBlock ∧
        ∀ (i : Nat) (hi : i < C.length), 0 < i →
          (∃ n : Int, C[i - 1].index = JsValue.number (JsNumber.finite (n : ℚ))
              ∧ C[i].index = JsValue.number (JsNumber.finite ((n : ℚ) + 1)))
            ∧ C[i].previousHash = C[i - 1].hash
            ∧ JsValue.string (calculateHash js C[i].index C[i].previousHash C[i].timestamp
                C[i].data) = C[i].hash)
      ∧ isValidChain js [getGenesisBlock] = true := by
  constructor
  · rw [rawChain_eq_true]
    constructor
    · rintro ⟨h0, hg, h⟩
      have hidx := linked_of_accepted js C hLen h0 hg h
      refine ⟨List.ne_nil_of_length_pos h0, ?_, fun i hi hpos => ?_⟩
      · rw [List.getElem?_eq_getElem h0, hg]
      · have hp : C[i - 1].index = JsValue.number (JsNumber.finite (((i - 1 : Nat) : Int) : ℚ)) := by
          rw [hidx (i - 1) (by omega)]
          push_cast
          rfl
        obtain ⟨h1, h2, h3⟩ := isValidNewBlock_sound js C[i] C[i - 1] ((i - 1 : Nat) : Int)
          hp (by simp only [Int.natAbs_ofNat]; omega) (h i hi hpos)
        exact ⟨⟨_, hp, h1⟩, h2, h3⟩
    · rintro ⟨hne, hg, h⟩
      have h0 : 0 < C.length := List.length_pos.2 hne
      have hg2 : C[0] = getGenesisBlock := by
        rw [List.getElem?_eq_getElem h0] at hg
        exact Option.some.inj hg
      have htyped := typed_of_linked js C h0 hg2 h
      refine ⟨h0, hg2, fun i hi hpos => ?_⟩
      obtain ⟨hpi, ph, hph⟩ := htyped (i - 1) (by omega)
      obtain ⟨hci, _⟩ := htyped i hi
      obtain ⟨_, h2, h3⟩ := h i hi hpos
      refine isValidNewBlock_complete js C[i] C[i - 1] ((i - 1 : Nat) : Int) ph hpi
        (by simp only [Int.natAbs_ofNat]; omega) hph ?_ (by rw [h2, hph]) h3
      rw [hci]
      have : ((i : Int) : ℚ) = (((i - 1 : Nat) : Int) : ℚ) + 1 := by
        have hi1 : ((i - 1 : Nat) : Int) = (i : Int) - 1 := by omega
        rw [hi1]
        push_cast
        ring
      rw [this]
  · rw [rawChain_eq_true]
    refine ⟨by simp, rfl, fun i hi hpos => ?_⟩
    simp at hi
    omega

/-- Witness for C4 as amended: the two-block chain `[genesis, sampleRaw1]` is accepted
under `toyBuiltins`. -/
theorem isValidChain_iff_text_witness :
    [getGenesisBlock, sampleRaw1].length ≤ 2 ^ 53
      ∧ isValidChain toyBuiltins [getGenesisBlock, sampleRaw1] = true :=
  ⟨by decide,
    ((isValidChain_iff_text toyBuiltins [getGenesisBlock, sampleRaw1] (by decide)).1).2
      ⟨by decide, rfl, fun i hi hpos => by
        have hi1 : i = 1 := by
          simp at hi
          omega
        subst hi1
        refine ⟨⟨0, ?_, ?_⟩, rfl, rfl⟩
        · show JsValue.number (JsNumber.finite 0)
            = JsValue.number (JsNumber.finite (((0 : Int)) : ℚ))
          norm_num
        · show JsValue.number (JsNumber.finite 1)
            = JsValue.number (JsNumber.finite ((((0 : Int)) : ℚ) + 1))
          norm_num⟩⟩

end Raw

/-- The typed `isValidNewBlock` is the source's check on objects whose fields have the
constructor's types, as long as the predecessor's index has magnitude below `2 ^ 53` and
the candidate's index and timestamp are written as `calculateHash` above writes them. -/
theorem isValidNewBlock_toRaw (js : Raw.Builtins) (candidate predecessor : Block)
    (hSafe : predecessor.index.natAbs < 2 ^ 53)
    (hIdxText : js.numberToString (Raw.JsNumber.finite (candidate.index : ℚ))
      = toString candidate.index)
    (hTimeText : js.numberToString (Raw.JsNumber.finite candidate.timestamp)
      = numberToString candidate.timestamp) :
    Raw.isValidNewBlock js candidate.toRaw predecessor.toRaw
      = isValidNewBlock (fun text => js.sha256 (Raw.JsValue.string text)) candidate
          predecessor := by
  have hcalc : Raw.calculateHash js candidate.toRaw.index candidate.toRaw.previousHash
      candidate.toRaw.timestamp candidate.toRaw.data
      = calculateHash (fun text => js.sha256 (Raw.JsValue.string text)) candidate.index
          candidate.previousHash candidate.timestamp candidate.data := by
    simp only [Raw.calculateHash, Block.toRaw, Raw.jsAdd, Raw.asNumber, Raw.toStr, hIdxText,
      hTimeText, calculateHash]
  have hiff : Raw.isValidNewBlock js candidate.toRaw predecessor.toRaw = true
      ↔ isValidNewBlock (fun text => js.sha256 (Raw.JsValue.string text)) candidate
          predecessor = true := by
    rw [isValidNewBlock_eq_true]
    constructor
    · intro h
      obtain ⟨h1, h2, h3⟩ := Raw.isValidNewBlock_sound js candidate.toRaw predecessor.toRaw
        predecessor.index rfl hSafe h
      rw [hcalc] at h3
      refine ⟨?_, ?_, ?_⟩
      · simp only [Block.toRaw] at h1
        injection h1 with h1
        injection h1 with h1
        exact_mod_cast h1
      · simp only [Block.toRaw] at h2
        injection h2
      · simp only [Block.toRaw] at h3
        injection h3
    · rintro ⟨h1, h2, h3⟩
      refine Raw.isValidNewBlock_complete js candidate.toRaw predecessor.toRaw
        predecessor.index predecessor.hash rfl hSafe rfl ?_ ?_ ?_
      · simp only [Block.toRaw, h1]
        push_cast
        rfl
      · simp only [Block.toRaw, h2]
      · rw [hcalc, h3]
        rfl
  cases ha : Raw.isValidNewBlock js candidate.toRaw predecessor.toRaw <;>
    cases hb : isValidNewBlock (fun text => js.sha256 (Raw.JsValue.string text)) candidate
      predecessor <;> simp_all

end Naivechain
